import Mathlib

/-!
# tiny-pe-parser: a shallow embedding of `pe::PeParser`

The C++ sources `pe_parser.h` / `pe_parser.cpp` are embedded as Lean functions, and so
are `Hex` and the image-base line of `PrintMetadata` from `main.cpp`.

* `std::vector<uint8_t>` is a `List Byte` with `Byte = Fin 256`.
* `size_t` is the 64-bit unsigned type: sums and products computed in `size_t`
  are reduced modulo `SIZE_MAX + 1` (`szAdd`, `szMul`).
* `uint16_t` / `uint32_t` / `uint64_t` values are natural numbers; every
  conversion and every shift of the source is written with its explicit modulus.
* `throw std::runtime_error(msg)` is `Except.error e`, where `e : PeError` names the
  throw site and `PeError.what e` is the message text of that site.
* `data_[i]` with `i` outside the vector has no defined behaviour in C++; the
  embedding makes it the separate outcome `PeError.vectorIndexOutOfRange`, so that
  "never reads out of bounds" is a statement about results.
* The `std::ostringstream` operations that `Hex` calls belong to the C++ library, not to
  the repository; `OStringStream` models the part of their behaviour that `Hex` uses.
-/

namespace pe

/-! ## Data model (`pe_parser.h`) -/

/-- One element of `std::vector<uint8_t>`. -/
abbrev Byte := Fin 256

/-- The value `std::numeric_limits<size_t>::max()` of a 64-bit `size_t`. -/
def SIZE_MAX : Nat := 18446744073709551615

/-- Addition of two `size_t` values (wraps modulo `SIZE_MAX + 1`). -/
def szAdd (a b : Nat) : Nat := (a + b) % (SIZE_MAX + 1)

/-- Multiplication of two `size_t` values (wraps modulo `SIZE_MAX + 1`). -/
def szMul (a b : Nat) : Nat := (a * b) % (SIZE_MAX + 1)

/-- The outcomes other than a normal return. The first seven are the
`std::runtime_error` throw sites of `pe_parser.cpp`; the last one marks an
`operator[]` access outside the vector. -/
inductive PeError where
  | fileTooSmall
  | invalidDosSignature
  | unexpectedEndOfFile
  | invalidPeSignature
  | optionalHeaderTooSmall
  | unknownOptionalHeaderMagic
  | sectionTableOverflow
  | vectorIndexOutOfRange
  deriving DecidableEq

/-- The text returned by `what()` for each throw site. -/
def PeError.what : PeError → String
  | .fileTooSmall => "File too small to contain a valid DOS header."
  | .invalidDosSignature => "Invalid DOS signature. Not a PE file."
  | .unexpectedEndOfFile => "Unexpected end of file while reading PE data."
  | .invalidPeSignature => "Invalid PE signature."
  | .optionalHeaderTooSmall => "Optional header is too small."
  | .unknownOptionalHeaderMagic => "Unknown optional header magic."
  | .sectionTableOverflow => "Section table size overflows address space."
  | .vectorIndexOutOfRange => "(vector index out of range)"

/-- The message carried by a failed result, `none` for a normal return. -/
def errorMessage {α : Type} : Except PeError α → Option String
  | .error e => some e.what
  | .ok _ => none

/-- The C++ `struct FileHeader`. -/
structure FileHeader where
  machine : Nat
  number_of_sections : Nat
  time_date_stamp : Nat
  pointer_to_symbol_table : Nat
  number_of_symbols : Nat
  size_of_optional_header : Nat
  characteristics : Nat
  deriving DecidableEq

/-- The C++ `struct OptionalHeader`. -/
structure OptionalHeader where
  is_pe32_plus : Bool
  magic : Nat
  address_of_entry_point : Nat
  image_base : Nat
  subsystem : Nat
  deriving DecidableEq

/-- The C++ `struct SectionHeader`; `name` is the `std::string` as its raw 8-bit codes. -/
structure SectionHeader where
  name : List Byte
  virtual_size : Nat
  virtual_address : Nat
  size_of_raw_data : Nat
  pointer_to_raw_data : Nat
  deriving DecidableEq

/-- The C++ `struct PeMetadata`. -/
structure PeMetadata where
  file_header : FileHeader
  optional_header : OptionalHeader
  sections : List SectionHeader
  deriving DecidableEq

/-! ## Constants (`pe_parser.cpp`, anonymous namespace) -/

def kDosMagic : Nat := 0x5A4D
def kPeMagic : Nat := 0x00004550
def kOptionalHeaderMagicPE32 : Nat := 0x10B
def kOptionalHeaderMagicPE32Plus : Nat := 0x20B
/-- The local constant `kSectionSize` of `Parse`. -/
def kSectionSize : Nat := 40

/-! ## The binary reader -/

/-- The access `data_[i]`. -/
def vecAt (data : List Byte) (i : Nat) : Except PeError Byte :=
  match data[i]? with
  | some b => .ok b
  | none => .error .vectorIndexOutOfRange

/-- The method `PeParser::EnsureBounds`. -/
def EnsureBounds (data : List Byte) (offset size : Nat) : Except PeError Unit :=
  if offset > data.length ∨ size > data.length - offset then
    .error .unexpectedEndOfFile
  else
    .ok ()

/-- The method `PeParser::ReadU16`: the operands are promoted to `int`, the result is
converted back to `uint16_t`. -/
def ReadU16 (data : List Byte) (offset : Nat) : Except PeError Nat := do
  EnsureBounds data offset 2
  let b0 ← vecAt data offset
  let b1 ← vecAt data (szAdd offset 1)
  pure ((b0.val ||| (b1.val <<< 8)) % 2 ^ 16)

/-- The method `PeParser::ReadU32`: every shift is a `uint32_t` shift. -/
def ReadU32 (data : List Byte) (offset : Nat) : Except PeError Nat := do
  EnsureBounds data offset 4
  let b0 ← vecAt data offset
  let b1 ← vecAt data (szAdd offset 1)
  let b2 ← vecAt data (szAdd offset 2)
  let b3 ← vecAt data (szAdd offset 3)
  pure (b0.val ||| ((b1.val <<< 8) % 2 ^ 32) ||| ((b2.val <<< 16) % 2 ^ 32)
    ||| ((b3.val <<< 24) % 2 ^ 32))

/-- The `for` loop of `ReadU64`: `k` iterations remain, `i` is the loop counter. -/
def ReadU64.loop (data : List Byte) (offset : Nat) : Nat → Nat → Nat → Except PeError Nat
  | 0, _, value => .ok value
  | k + 1, i, value => do
    let b ← vecAt data (szAdd offset i)
    ReadU64.loop data offset k (i + 1) (value ||| ((b.val <<< (szMul 8 i)) % 2 ^ 64))

/-- The method `PeParser::ReadU64`. -/
def ReadU64 (data : List Byte) (offset : Nat) : Except PeError Nat := do
  EnsureBounds data offset 8
  ReadU64.loop data offset 8 0 0

/-- The `for` loop of `ReadString`: `k` iterations remain, `i` is the loop counter;
the `break` on a null byte returns the string built so far. -/
def ReadString.loop (data : List Byte) (offset : Nat) :
    Nat → Nat → List Byte → Except PeError (List Byte)
  | 0, _, value => .ok value
  | k + 1, i, value => do
    let c ← vecAt data (szAdd offset i)
    if c = 0 then
      pure value
    else
      ReadString.loop data offset k (i + 1) (value ++ [c])

/-- The method `PeParser::ReadString`. -/
def ReadString (data : List Byte) (offset max_len : Nat) : Except PeError (List Byte) := do
  EnsureBounds data offset max_len
  ReadString.loop data offset max_len 0 []

/-! ## The layout walk -/

/-- The body of the section loop of `Parse` for the entry at `section_offset`. -/
def readSection (data : List Byte) (section_offset : Nat) : Except PeError SectionHeader := do
  let name ← ReadString data section_offset 8
  let virtual_size ← ReadU32 data (szAdd section_offset 8)
  let virtual_address ← ReadU32 data (szAdd section_offset 12)
  let size_of_raw_data ← ReadU32 data (szAdd section_offset 16)
  let pointer_to_raw_data ← ReadU32 data (szAdd section_offset 20)
  pure { name := name, virtual_size := virtual_size, virtual_address := virtual_address,
         size_of_raw_data := size_of_raw_data, pointer_to_raw_data := pointer_to_raw_data }

/-- The section loop of `Parse`: `k` iterations remain, `i` is the loop counter and
`sections` the vector built so far. -/
def sectionLoop (data : List Byte) (section_table_offset : Nat) :
    Nat → Nat → List SectionHeader → Except PeError (List SectionHeader)
  | 0, _, sections => .ok sections
  | k + 1, i, sections => do
    let section_offset := szAdd section_table_offset (szMul i kSectionSize)
    let s ← readSection data section_offset
    sectionLoop data section_table_offset k (i + 1) (sections ++ [s])

/-- The method `PeParser::Parse`. Each `if (...) throw ...;` of the source is one
statement `(if ... then throw ... else pure ())`. -/
def Parse (data : List Byte) : Except PeError PeMetadata := do
  (if data.length < 0x40 then throw PeError.fileTooSmall else pure ())
  (if (← ReadU16 data 0) ≠ kDosMagic then throw PeError.invalidDosSignature else pure ())
  let pe_offset ← ReadU32 data 0x3C
  EnsureBounds data pe_offset 4
  (if (← ReadU32 data pe_offset) ≠ kPeMagic then throw PeError.invalidPeSignature
   else pure ())
  let file_header_offset := szAdd pe_offset 4
  EnsureBounds data file_header_offset 20
  let machine ← ReadU16 data (szAdd file_header_offset 0)
  let number_of_sections ← ReadU16 data (szAdd file_header_offset 2)
  let time_date_stamp ← ReadU32 data (szAdd file_header_offset 4)
  let pointer_to_symbol_table ← ReadU32 data (szAdd file_header_offset 8)
  let number_of_symbols ← ReadU32 data (szAdd file_header_offset 12)
  let size_of_optional_header ← ReadU16 data (szAdd file_header_offset 16)
  let characteristics ← ReadU16 data (szAdd file_header_offset 18)
  let file_header : FileHeader :=
    { machine := machine, number_of_sections := number_of_sections,
      time_date_stamp := time_date_stamp,
      pointer_to_symbol_table := pointer_to_symbol_table,
      number_of_symbols := number_of_symbols,
      size_of_optional_header := size_of_optional_header,
      characteristics := characteristics }
  (if file_header.size_of_optional_header < 0x46 then
     throw PeError.optionalHeaderTooSmall
   else pure ())
  let optional_header_offset := szAdd file_header_offset 20
  EnsureBounds data optional_header_offset file_header.size_of_optional_header
  let magic ← ReadU16 data optional_header_offset
  let is_pe32_plus ←
    (if magic = kOptionalHeaderMagicPE32 then pure false
     else if magic = kOptionalHeaderMagicPE32Plus then pure true
     else throw PeError.unknownOptionalHeaderMagic)
  let address_of_entry_point ← ReadU32 data (szAdd optional_header_offset 0x10)
  let image_base ←
    (if is_pe32_plus then ReadU64 data (szAdd optional_header_offset 0x18)
     else ReadU32 data (szAdd optional_header_offset 0x1C))
  let subsystem ← ReadU16 data (szAdd optional_header_offset 0x44)
  let optional_header : OptionalHeader :=
    { is_pe32_plus := is_pe32_plus, magic := magic,
      address_of_entry_point := address_of_entry_point,
      image_base := image_base, subsystem := subsystem }
  let section_table_offset :=
    szAdd optional_header_offset file_header.size_of_optional_header
  (if file_header.number_of_sections > SIZE_MAX / kSectionSize then
     throw PeError.sectionTableOverflow
   else pure ())
  let section_table_size := szMul file_header.number_of_sections kSectionSize
  EnsureBounds data section_table_offset section_table_size
  let sections ← sectionLoop data section_table_offset file_header.number_of_sections 0 []
  pure { file_header := file_header, optional_header := optional_header,
         sections := sections }

/-! ## Reference decoders used to state the properties -/

/-- The byte at index `i` as a number (`0` when `i` is outside the buffer). -/
def byteAt (data : List Byte) (i : Nat) : Nat := (data.getD i 0).val

/-- The little-endian value of the `n` bytes starting at `offset`. -/
def leValue (data : List Byte) (offset : Nat) : Nat → Nat
  | 0 => 0
  | n + 1 => byteAt data offset + 256 * leValue data (offset + 1) n

/-- The little-endian 16-bit value at `offset`. -/
def leU16 (data : List Byte) (offset : Nat) : Nat := leValue data offset 2

/-- The little-endian 32-bit value at `offset`. -/
def leU32 (data : List Byte) (offset : Nat) : Nat := leValue data offset 4

/-- The little-endian 64-bit value at `offset`. -/
def leU64 (data : List Byte) (offset : Nat) : Nat := leValue data offset 8

/-- The `max_len` bytes at `offset`, cut at the first null byte. -/
def fixedString (data : List Byte) (offset max_len : Nat) : List Byte :=
  ((data.drop offset).take max_len).takeWhile (fun c => c ≠ 0)

/-- The section entry stored in the 40 bytes at `offset`. -/
def sectionAt (data : List Byte) (offset : Nat) : SectionHeader :=
  { name := fixedString data offset 8,
    virtual_size := leU32 data (offset + 8),
    virtual_address := leU32 data (offset + 12),
    size_of_raw_data := leU32 data (offset + 16),
    pointer_to_raw_data := leU32 data (offset + 20) }

/-- The metadata stored at the documented offsets of `data`: the file header at `p + 4`,
the optional header at `p + 24` and the section table right after it, where `p` is the
little-endian dword at `0x3C`. -/
def metadataAt (data : List Byte) : PeMetadata :=
  let p := leU32 data 0x3C
  let soh := leU16 data (p + 20)
  let n := leU16 data (p + 6)
  let magic := leU16 data (p + 24)
  { file_header :=
      { machine := leU16 data (p + 4),
        number_of_sections := n,
        time_date_stamp := leU32 data (p + 8),
        pointer_to_symbol_table := leU32 data (p + 12),
        number_of_symbols := leU32 data (p + 16),
        size_of_optional_header := soh,
        characteristics := leU16 data (p + 22) },
    optional_header :=
      { is_pe32_plus := decide (magic = 0x20B),
        magic := magic,
        address_of_entry_point := leU32 data (p + 24 + 0x10),
        image_base :=
          if magic = 0x20B then leU64 data (p + 24 + 0x18) else leU32 data (p + 24 + 0x1C),
        subsystem := leU16 data (p + 24 + 0x44) },
    sections := (List.range n).map (fun i => sectionAt data (p + 24 + soh + 40 * i)) }

/-- The layout walk of the specification (section 4.2), written over the reference
decoders: the result of the first failing step, or the metadata. -/
def layoutWalk (data : List Byte) : Except PeError PeMetadata :=
  let p := leU32 data 0x3C
  let soh := leU16 data (p + 20)
  let n := leU16 data (p + 6)
  let magic := leU16 data (p + 24)
  if data.length < 0x40 then .error .fileTooSmall
  else if leU16 data 0 ≠ 0x5A4D then .error .invalidDosSignature
  else if data.length < p + 4 then .error .unexpectedEndOfFile
  else if leU32 data p ≠ 0x00004550 then .error .invalidPeSignature
  else if data.length < p + 24 then .error .unexpectedEndOfFile
  else if soh < 0x46 then .error .optionalHeaderTooSmall
  else if data.length < p + 24 + soh then .error .unexpectedEndOfFile
  else if magic ≠ 0x10B ∧ magic ≠ 0x20B then .error .unknownOptionalHeaderMagic
  else if data.length < p + 24 + soh + 40 * n then .error .unexpectedEndOfFile
  else .ok (metadataAt data)

/-! ## Sample buffers -/

/-- A run of `n` zero bytes. -/
def zeros (n : Nat) : List Byte := List.replicate n 0

/-- A 64-byte DOS header: "MZ", zero filler and `e_lfanew = 0x40`. -/
def sampleDosHeader : List Byte := [0x4D, 0x5A] ++ zeros 58 ++ [0x40, 0, 0, 0]

/-- A 24-byte PE signature and file header for machine `0x8664` with `nsec` sections
and an optional header of `soh` bytes. -/
def sampleFileHeader (nsec soh : Byte) : List Byte :=
  [0x50, 0x45, 0, 0] ++
  [0x64, 0x86, nsec, 0, 1, 2, 3, 4, 0, 0, 0, 0, 5, 0, 0, 0, soh, 0, 0x22, 0]

/-- A 70-byte optional header with magic bytes `m0 m1`, entry point `0x1000`, the bytes
`EF BE AD DE 00 00 40 00` at sub-offset `0x18` and subsystem 3. -/
def sampleOptionalHeader (m0 m1 : Byte) : List Byte :=
  [m0, m1] ++ zeros 14 ++ [0x00, 0x10, 0, 0] ++ zeros 4
    ++ [0xEF, 0xBE, 0xAD, 0xDE, 0x00, 0x00, 0x40, 0x00] ++ zeros 36 ++ [3, 0]

/-- A 40-byte section entry named ".text" (a null byte at index 5, then a stray `A`). -/
def sampleTextSection : List Byte :=
  [0x2E, 0x74, 0x65, 0x78, 0x74, 0, 0x41, 0] ++ [1, 0, 0, 0, 2, 0, 0, 0, 3, 0, 0, 0,
    0xFF, 0xFF, 0xFF, 0xFF] ++ zeros 16

/-- A 40-byte section entry whose name ".rsrc_01" fills all 8 bytes. -/
def sampleRsrcSection : List Byte :=
  [0x2E, 0x72, 0x73, 0x72, 0x63, 0x5F, 0x30, 0x31] ++ [0x10, 0, 0, 0, 0, 0x20, 0, 0,
    0, 0, 0x30, 0, 0, 0, 0, 0x40] ++ zeros 16

/-- A well-formed PE32+ image with one section (198 bytes). -/
def samplePe32Plus : List Byte :=
  sampleDosHeader ++ sampleFileHeader 1 0x46 ++ sampleOptionalHeader 0x0B 0x02
    ++ sampleTextSection

/-- The metadata of `samplePe32Plus`, field by field. -/
def samplePe32PlusMetadata : PeMetadata :=
  { file_header :=
      { machine := 0x8664, number_of_sections := 1, time_date_stamp := 0x04030201,
        pointer_to_symbol_table := 0, number_of_symbols := 5,
        size_of_optional_header := 0x46, characteristics := 0x22 },
    optional_header :=
      { is_pe32_plus := true, magic := 0x20B, address_of_entry_point := 0x1000,
        image_base := 0x00400000DEADBEEF, subsystem := 3 },
    sections :=
      [{ name := [0x2E, 0x74, 0x65, 0x78, 0x74], virtual_size := 1, virtual_address := 2,
         size_of_raw_data := 3, pointer_to_raw_data := 0xFFFFFFFF }] }

/-- A well-formed PE32 image with two sections (238 bytes). -/
def samplePe32 : List Byte :=
  sampleDosHeader ++ sampleFileHeader 2 0x46 ++ sampleOptionalHeader 0x0B 0x01
    ++ sampleTextSection ++ sampleRsrcSection

/-- The metadata of `samplePe32`, field by field. -/
def samplePe32Metadata : PeMetadata :=
  { file_header :=
      { machine := 0x8664, number_of_sections := 2, time_date_stamp := 0x04030201,
        pointer_to_symbol_table := 0, number_of_symbols := 5,
        size_of_optional_header := 0x46, characteristics := 0x22 },
    optional_header :=
      { is_pe32_plus := false, magic := 0x10B, address_of_entry_point := 0x1000,
        image_base := 0x00400000, subsystem := 3 },
    sections :=
      [{ name := [0x2E, 0x74, 0x65, 0x78, 0x74], virtual_size := 1, virtual_address := 2,
         size_of_raw_data := 3, pointer_to_raw_data := 0xFFFFFFFF },
       { name := [0x2E, 0x72, 0x73, 0x72, 0x63, 0x5F, 0x30, 0x31], virtual_size := 0x10,
         virtual_address := 0x2000, size_of_raw_data := 0x300000,
         pointer_to_raw_data := 0x40000000 }] }

/-- The four bytes `7F 45 4C 46` (the start of an ELF file). -/
def elfMagic : List Byte := [0x7F, 0x45, 0x4C, 0x46]

/-! ## Symbolic lookup tables (`pe_parser.cpp`) -/

/-- The function `MachineToString` (`machine` is a `uint16_t`). -/
def MachineToString (machine : Nat) : String :=
  match machine with
  | 0x014C => "x86"
  | 0x8664 => "x64"
  | 0x01C0 => "ARM"
  | 0x01C4 => "ARM Thumb-2"
  | 0xAA64 => "ARM64"
  | 0x0200 => "Intel Itanium"
  | 0x01F0 => "PowerPC"
  | _ => "Unknown"

/-- The function `SubsystemToString` (`subsystem` is a `uint16_t`). -/
def SubsystemToString (subsystem : Nat) : String :=
  match subsystem with
  | 1 => "Native"
  | 2 => "Windows GUI"
  | 3 => "Windows CUI"
  | 5 => "OS/2 CUI"
  | 7 => "POSIX CUI"
  | 9 => "Windows CE GUI"
  | 10 => "EFI Application"
  | 11 => "EFI Boot Service"
  | 12 => "EFI Runtime Service"
  | 13 => "EFI ROM"
  | 14 => "Xbox"
  | 16 => "Windows Boot Application"
  | _ => "Unknown"

/-! ## Well-formed buffers and further sample buffers -/

/-- The PE32 sample with `number_of_sections` set to `0xFFFF` (still 238 bytes). -/
def maxSectionsImage : List Byte :=
  sampleDosHeader ++ [0x50, 0x45, 0, 0] ++
  [0x64, 0x86, 0xFF, 0xFF, 1, 2, 3, 4, 0, 0, 0, 0, 5, 0, 0, 0, 0x46, 0, 0x22, 0]
    ++ sampleOptionalHeader 0x0B 0x01 ++ sampleTextSection ++ sampleRsrcSection

/-- The well-formedness conditions of the layout walk: every check of `Parse` passes. -/
def wellFormed (data : List Byte) : Prop :=
  64 ≤ data.length
  ∧ leU16 data 0 = 0x5A4D
  ∧ leU32 data 0x3C + 4 ≤ data.length
  ∧ leU32 data (leU32 data 0x3C) = 0x00004550
  ∧ leU32 data 0x3C + 24 ≤ data.length
  ∧ 0x46 ≤ leU16 data (leU32 data 0x3C + 20)
  ∧ leU32 data 0x3C + 24 + leU16 data (leU32 data 0x3C + 20) ≤ data.length
  ∧ (leU16 data (leU32 data 0x3C + 24) = 0x10B ∨ leU16 data (leU32 data 0x3C + 24) = 0x20B)
  ∧ leU32 data 0x3C + 24 + leU16 data (leU32 data 0x3C + 20)
      + 40 * leU16 data (leU32 data 0x3C + 6) ≤ data.length

instance (data : List Byte) : Decidable (wellFormed data) := by
  unfold wellFormed
  infer_instance

/-- A 96-byte image: "MZ", the PE signature at offset 2 (`e_lfanew = 2` is stored at
`0x3C`, inside the optional header), a file header with zero sections and
`size_of_optional_header = 0x46`, and a PE32 optional header at offset 26. -/
def minimalImage : List Byte :=
  [0x4D, 0x5A, 0x50, 0x45, 0, 0, 0x4C, 0x01, 0, 0] ++ zeros 12 ++ [0x46, 0, 0x02, 0x01]
    ++ [0x0B, 0x01] ++ zeros 32 ++ [2, 0, 0, 0] ++ zeros 30 ++ [3, 0]

/-- The metadata of `minimalImage`. -/
def minimalImageMetadata : PeMetadata :=
  { file_header :=
      { machine := 0x014C, number_of_sections := 0, time_date_stamp := 0,
        pointer_to_symbol_table := 0, number_of_symbols := 0,
        size_of_optional_header := 0x46, characteristics := 0x0102 },
    optional_header :=
      { is_pe32_plus := false, magic := 0x10B, address_of_entry_point := 0,
        image_base := 0, subsystem := 3 },
    sections := [] }

/-! ## Overwriting bytes of a buffer -/

/-- The four little-endian bytes of a 32-bit value. -/
def encodeU32 (v : Nat) : List Byte :=
  [Fin.ofNat v, Fin.ofNat (v / 256), Fin.ofNat (v / 65536), Fin.ofNat (v / 16777216)]

/-- The buffer `data` with the bytes from `offset` on replaced by `bytes`. -/
def overwrite (data : List Byte) (offset : Nat) (bytes : List Byte) : List Byte :=
  data.take offset ++ bytes ++ data.drop (offset + bytes.length)

/-! ## Hexadecimal output (`Hex` and `PrintMetadata` of `main.cpp`) -/

/-- The sixteen uppercase hexadecimal digit characters. -/
def hexChars : List Char := "0123456789ABCDEF".toList

/-- The character of the hexadecimal digit `d`. -/
def hexDigitUpper (d : Nat) : Char := hexChars.getD d '0'

/-- The digits of `v`, most significant first, in front of `acc`; `fuel` bounds the number
of digits produced (16 suffice for a `uint64_t`). -/
def hexDigitsAux : Nat → Nat → List Char → List Char
  | 0, _, acc => acc
  | fuel + 1, v, acc =>
    if v < 16 then hexDigitUpper v :: acc
    else hexDigitsAux fuel (v / 16) (hexDigitUpper (v % 16) :: acc)

/-- Modelled from the spec: the digits that the C++ stream library (not part of the
repository) produces for a `uint64_t` under `std::hex` and `std::uppercase`: the uppercase
hexadecimal digits of the value, without prefix and without leading zeros, at least one. -/
def hexDigitsUpper (value : Nat) : List Char := hexDigitsAux 16 value []

/-- Modelled from the spec: the state of a `std::ostringstream` as far as `Hex` uses it
(the stream library is not part of the repository): the characters written so far, the
field width of the next insertion (0 for none) and the fill character. -/
structure OStringStream where
  str : List Char
  width : Nat
  fill : Char

/-- Modelled from the spec: a freshly constructed `std::ostringstream` (library code):
empty, no field width, fill character blank. -/
def OStringStream.fresh : OStringStream := { str := [], width := 0, fill := ' ' }

/-- Modelled from the spec: `std::setw(w)` (library code). -/
def OStringStream.setw (s : OStringStream) (w : Nat) : OStringStream := { s with width := w }

/-- Modelled from the spec: `std::setfill(c)` (library code). -/
def OStringStream.setfill (s : OStringStream) (c : Char) : OStringStream :=
  { s with fill := c }

/-- Modelled from the spec: the insertion of a formatted field (library code): the field
is right-adjusted, padded on the left with the fill character up to the field width and
never cut; the field width is reset to 0. -/
def OStringStream.insertField (s : OStringStream) (field : List Char) : OStringStream :=
  { s with str := s.str ++ (List.replicate (s.width - field.length) s.fill ++ field),
           width := 0 }

/-- Modelled from the spec: `oss << value` for a `uint64_t` once `std::hex` and
`std::uppercase` are set (library code). -/
def OStringStream.insertHexUpper (s : OStringStream) (value : Nat) : OStringStream :=
  s.insertField (hexDigitsUpper value)

/-- The function `Hex` of `main.cpp`; `width` is an `int` (0 when the caller omits it).
The flags `std::hex` and `std::uppercase` set in its first statement are those under which
`insertHexUpper` formats. -/
def Hex (value : Nat) (width : Int) : String :=
  let oss := OStringStream.fresh
  let oss := oss.insertField ['0', 'x']
  let oss := if width > 0 then (oss.setw width.toNat).setfill '0' else oss
  let oss := oss.insertHexUpper value
  String.mk oss.str

/-- The image-base text that `PrintMetadata` writes after "  Image Base: ". -/
def printedImageBase (m : PeMetadata) : String :=
  Hex m.optional_header.image_base (if m.optional_header.is_pe32_plus then 16 else 8)

/-- The number denoted by a string of hexadecimal digits. -/
def hexValue (digits : List Char) : Nat :=
  digits.foldl (fun acc c => 16 * acc + hexChars.indexOf c) 0

/-! # Theorems -/

/-! ## Lemmas on the `Except` monad and on `size_t` arithmetic -/

theorem bind_ok {α β : Type} (a : α) (f : α → Except PeError β) :
    (Except.ok a >>= f) = f a := rfl

theorem bind_error {α β : Type} (e : PeError) (f : α → Except PeError β) :
    (Except.error e >>= f) = Except.error e := rfl

theorem szAdd_eq (a b : Nat) (h : a + b ≤ SIZE_MAX) : szAdd a b = a + b := by
  unfold szAdd
  exact Nat.mod_eq_of_lt (by omega)

theorem szAdd_le (a b : Nat) : szAdd a b ≤ a + b := by
  unfold szAdd
  exact Nat.mod_le _ _

theorem szMul_eq (a b : Nat) (h : a * b ≤ SIZE_MAX) : szMul a b = a * b := by
  unfold szMul
  exact Nat.mod_eq_of_lt (by omega)

/-! ## Lemmas on the binary reader -/

theorem byteAt_lt (data : List Byte) (i : Nat) : byteAt data i < 256 :=
  (data.getD i 0).isLt

theorem EnsureBounds_eq_ok_iff (data : List Byte) (offset size : Nat) :
    EnsureBounds data offset size = .ok () ↔ offset + size ≤ data.length := by
  unfold EnsureBounds
  split
  · rename_i h
    constructor
    · intro h'; cases h'
    · intro h'; omega
  · rename_i h
    constructor
    · intro _; omega
    · intro _; rfl

theorem EnsureBounds_of_le {data : List Byte} {offset size : Nat}
    (h : offset + size ≤ data.length) : EnsureBounds data offset size = .ok () :=
  (EnsureBounds_eq_ok_iff data offset size).2 h

theorem EnsureBounds_of_gt {data : List Byte} {offset size : Nat}
    (h : data.length < offset + size) :
    EnsureBounds data offset size = .error .unexpectedEndOfFile := by
  unfold EnsureBounds
  rw [if_pos (by omega)]

theorem vecAt_of_lt {data : List Byte} {i : Nat} (h : i < data.length) :
    vecAt data i = .ok (data.getD i 0) := by
  unfold vecAt
  rw [List.getD_eq_getElem?_getD, List.getElem?_eq_getElem h]
  rfl

theorem or_shiftLeft (v b k : Nat) (hv : v < 2 ^ k) : v ||| (b <<< k) = v + b * 2 ^ k := by
  rw [Nat.shiftLeft_eq, Nat.or_comm, Nat.mul_comm b, ← Nat.mul_add_lt_is_or hv]
  omega

theorem leU16_eq (data : List Byte) (o : Nat) :
    leU16 data o = byteAt data o + 256 * byteAt data (o + 1) := by
  simp [leU16, leValue]

theorem leU32_eq (data : List Byte) (o : Nat) :
    leU32 data o = byteAt data o + 256 * byteAt data (o + 1) + 65536 * byteAt data (o + 2)
      + 16777216 * byteAt data (o + 3) := by
  simp only [leU32, leValue, Nat.add_assoc]
  norm_num
  omega

theorem leU64_eq (data : List Byte) (o : Nat) :
    leU64 data o = byteAt data o + 256 * byteAt data (o + 1) + 65536 * byteAt data (o + 2)
      + 16777216 * byteAt data (o + 3) + 4294967296 * byteAt data (o + 4)
      + 1099511627776 * byteAt data (o + 5) + 281474976710656 * byteAt data (o + 6)
      + 72057594037927936 * byteAt data (o + 7) := by
  simp only [leU64, leValue, Nat.add_assoc]
  norm_num
  omega

theorem leU16_lt (data : List Byte) (o : Nat) : leU16 data o < 65536 := by
  have h0 := byteAt_lt data o
  have h1 := byteAt_lt data (o + 1)
  rw [leU16_eq]
  omega

theorem leU32_lt (data : List Byte) (o : Nat) : leU32 data o < 4294967296 := by
  have h0 := byteAt_lt data o
  have h1 := byteAt_lt data (o + 1)
  have h2 := byteAt_lt data (o + 2)
  have h3 := byteAt_lt data (o + 3)
  rw [leU32_eq]
  omega

theorem ReadU16_of_gt {data : List Byte} {offset : Nat} (h : data.length < offset + 2) :
    ReadU16 data offset = .error .unexpectedEndOfFile := by
  unfold ReadU16
  rw [EnsureBounds_of_gt h]
  rfl

theorem ReadU32_of_gt {data : List Byte} {offset : Nat} (h : data.length < offset + 4) :
    ReadU32 data offset = .error .unexpectedEndOfFile := by
  unfold ReadU32
  rw [EnsureBounds_of_gt h]
  rfl

theorem ReadU64_of_gt {data : List Byte} {offset : Nat} (h : data.length < offset + 8) :
    ReadU64 data offset = .error .unexpectedEndOfFile := by
  unfold ReadU64
  rw [EnsureBounds_of_gt h]
  rfl

theorem ReadU16_of_le {data : List Byte} {offset : Nat} (h : offset + 2 ≤ data.length)
    (hw : offset + 2 ≤ SIZE_MAX) : ReadU16 data offset = .ok (leU16 data offset) := by
  unfold ReadU16
  rw [EnsureBounds_of_le h, bind_ok, vecAt_of_lt (by omega), bind_ok,
    szAdd_eq _ _ (by omega), vecAt_of_lt (by omega), bind_ok]
  have h0 := byteAt_lt data offset
  have h1 := byteAt_lt data (offset + 1)
  rw [leU16_eq]
  unfold byteAt at *
  rw [or_shiftLeft _ _ 8 (by omega)]
  show Except.ok _ = Except.ok _
  congr 1
  omega

theorem ReadU32_of_le {data : List Byte} {offset : Nat} (h : offset + 4 ≤ data.length)
    (hw : offset + 4 ≤ SIZE_MAX) : ReadU32 data offset = .ok (leU32 data offset) := by
  unfold ReadU32
  rw [EnsureBounds_of_le h, bind_ok, vecAt_of_lt (by omega), bind_ok,
    szAdd_eq _ _ (by omega), vecAt_of_lt (by omega), bind_ok,
    szAdd_eq _ _ (by omega), vecAt_of_lt (by omega), bind_ok,
    szAdd_eq _ _ (by omega), vecAt_of_lt (by omega), bind_ok]
  have h0 := byteAt_lt data offset
  have h1 := byteAt_lt data (offset + 1)
  have h2 := byteAt_lt data (offset + 2)
  have h3 := byteAt_lt data (offset + 3)
  rw [leU32_eq]
  unfold byteAt at *
  show Except.ok _ = Except.ok _
  congr 1
  simp only [Nat.shiftLeft_eq]
  rw [Nat.mod_eq_of_lt (by omega), Nat.mod_eq_of_lt (by omega), Nat.mod_eq_of_lt (by omega)]
  rw [← Nat.shiftLeft_eq, ← Nat.shiftLeft_eq, ← Nat.shiftLeft_eq]
  rw [or_shiftLeft _ _ 8 (by omega), or_shiftLeft _ _ 16 (by omega),
    or_shiftLeft _ _ 24 (by omega)]
  omega

theorem ReadU64_loop_eq (data : List Byte) (offset : Nat) :
    ∀ (k i value : Nat), offset + i + k ≤ data.length → offset + i + k ≤ SIZE_MAX →
      i + k ≤ 8 → value < 2 ^ (8 * i) →
      ReadU64.loop data offset k i value
        = .ok (value + 2 ^ (8 * i) * leValue data (offset + i) k) := by
  intro k
  induction k with
  | zero =>
    intro i value _ _ _ _
    simp [ReadU64.loop, leValue]
  | succ k ih =>
    intro i value hL hW hi hv
    have hb : byteAt data (offset + i) < 256 := byteAt_lt data (offset + i)
    have hpow : 2 ^ (8 * (i + 1)) = 2 ^ (8 * i) * 256 := by
      rw [Nat.mul_add, Nat.pow_add]
    have hpos : 0 < 2 ^ (8 * i) := Nat.pow_pos (by decide)
    have hle : 2 ^ (8 * (i + 1)) ≤ 2 ^ 64 := Nat.pow_le_pow_right (by decide) (by omega)
    have hlt : byteAt data (offset + i) * 2 ^ (8 * i) < 2 ^ 64 := by
      calc byteAt data (offset + i) * 2 ^ (8 * i)
          < 256 * 2 ^ (8 * i) := Nat.mul_lt_mul_of_pos_right hb hpos
        _ = 2 ^ (8 * (i + 1)) := by rw [hpow, Nat.mul_comm]
        _ ≤ 2 ^ 64 := hle
    have hnew : value + byteAt data (offset + i) * 2 ^ (8 * i) < 2 ^ (8 * (i + 1)) := by
      rw [hpow]
      have : (byteAt data (offset + i) + 1) * 2 ^ (8 * i) ≤ 256 * 2 ^ (8 * i) :=
        Nat.mul_le_mul_right _ (by omega)
      rw [Nat.add_mul, Nat.one_mul] at this
      rw [Nat.mul_comm (2 ^ (8 * i)) 256]
      omega
    unfold ReadU64.loop
    rw [szAdd_eq _ _ (by omega), vecAt_of_lt (by omega), bind_ok,
      szMul_eq _ _ (by unfold SIZE_MAX; omega)]
    show ReadU64.loop data offset k (i + 1)
      (value ||| (byteAt data (offset + i) <<< (8 * i)) % 2 ^ 64) = _
    rw [Nat.shiftLeft_eq, Nat.mod_eq_of_lt hlt, ← Nat.shiftLeft_eq, or_shiftLeft _ _ _ hv,
      ih (i + 1) _ (by omega) (by omega) (by omega) hnew, hpow]
    congr 1
    have e1 : offset + (i + 1) = offset + i + 1 := by omega
    rw [e1]
    simp only [leValue]
    ring

theorem ReadU64_of_le {data : List Byte} {offset : Nat} (h : offset + 8 ≤ data.length)
    (hw : offset + 8 ≤ SIZE_MAX) : ReadU64 data offset = .ok (leU64 data offset) := by
  unfold ReadU64
  rw [EnsureBounds_of_le h, bind_ok,
    ReadU64_loop_eq data offset 8 0 0 (by omega) (by omega) (by omega) (by decide)]
  simp [leU64]

theorem fixedString_zero (data : List Byte) (o : Nat) : fixedString data o 0 = [] := by
  simp [fixedString]

theorem fixedString_succ (data : List Byte) (o k : Nat) (h : o < data.length) :
    fixedString data o (k + 1)
      = if data.getD o 0 = 0 then [] else data.getD o 0 :: fixedString data (o + 1) k := by
  unfold fixedString
  rw [List.drop_eq_getElem_cons h, List.take_succ_cons, List.takeWhile_cons]
  have e : data.getD o 0 = data[o] := by
    rw [List.getD_eq_getElem?_getD, List.getElem?_eq_getElem h]
    rfl
  rw [e]
  by_cases hz : data[o] = 0 <;> simp [hz]

theorem ReadString_loop_eq (data : List Byte) (offset : Nat) :
    ∀ (k i : Nat) (value : List Byte), offset + i + k ≤ data.length →
      offset + i + k ≤ SIZE_MAX →
      ReadString.loop data offset k i value
        = .ok (value ++ fixedString data (offset + i) k) := by
  intro k
  induction k with
  | zero =>
    intro i value _ _
    simp [ReadString.loop, fixedString_zero]
  | succ k ih =>
    intro i value hL hW
    unfold ReadString.loop
    rw [szAdd_eq _ _ (by omega), vecAt_of_lt (by omega), bind_ok,
      fixedString_succ data (offset + i) k (by omega)]
    by_cases hz : data.getD (offset + i) 0 = 0
    · rw [if_pos hz, if_pos hz]
      simp [pure, Except.pure]
    · rw [if_neg hz, if_neg hz, ih (i + 1) _ (by omega) (by omega)]
      have e1 : offset + (i + 1) = offset + i + 1 := by omega
      rw [e1]
      simp

theorem ReadString_of_le {data : List Byte} {offset max_len : Nat}
    (h : offset + max_len ≤ data.length) (hw : offset + max_len ≤ SIZE_MAX) :
    ReadString data offset max_len = .ok (fixedString data offset max_len) := by
  unfold ReadString
  rw [EnsureBounds_of_le h, bind_ok,
    ReadString_loop_eq data offset max_len 0 [] (by omega) (by omega)]
  simp

theorem ReadString_of_gt {data : List Byte} {offset max_len : Nat}
    (h : data.length < offset + max_len) :
    ReadString data offset max_len = .error .unexpectedEndOfFile := by
  unfold ReadString
  rw [EnsureBounds_of_gt h]
  rfl

theorem readSection_of_le {data : List Byte} {offset : Nat}
    (h : offset + 40 ≤ data.length) (hw : offset + 40 ≤ SIZE_MAX) :
    readSection data offset = .ok (sectionAt data offset) := by
  unfold readSection
  rw [ReadString_of_le (by omega) (by omega), bind_ok,
    szAdd_eq _ _ (by omega), ReadU32_of_le (by omega) (by omega), bind_ok,
    szAdd_eq _ _ (by omega), ReadU32_of_le (by omega) (by omega), bind_ok,
    szAdd_eq _ _ (by omega), ReadU32_of_le (by omega) (by omega), bind_ok,
    szAdd_eq _ _ (by omega), ReadU32_of_le (by omega) (by omega), bind_ok]
  rfl

/-- The section entries `i, i+1, ..., i+k-1` of the table at `T`, in file order. -/
theorem sectionLoop_eq (data : List Byte) (T : Nat) :
    ∀ (k i : Nat) (sections : List SectionHeader),
      T + 40 * (i + k) ≤ data.length → T + 40 * (i + k) ≤ SIZE_MAX →
      sectionLoop data T k i sections
        = .ok (sections ++ (List.range k).map (fun j => sectionAt data (T + 40 * (i + j)))) := by
  intro k
  induction k with
  | zero =>
    intro i sections _ _
    simp [sectionLoop]
  | succ k ih =>
    intro i sections hL hW
    unfold sectionLoop
    simp only []
    rw [szMul_eq _ _ (by unfold kSectionSize; omega), szAdd_eq _ _ (by unfold kSectionSize; omega),
      readSection_of_le (by unfold kSectionSize; omega) (by unfold kSectionSize; omega), bind_ok,
      ih (i + 1) _ (by omega) (by omega)]
    congr 1
    rw [List.range_succ_eq_map, List.map_cons, List.map_map, List.append_assoc]
    congr 1
    simp only [List.singleton_append, kSectionSize, Nat.add_zero, Nat.mul_comm i 40]
    congr 1
    apply List.map_congr_left
    intro j _
    simp only [Function.comp]
    congr 2
    omega

theorem throw_eq {α : Type} (e : PeError) : (throw e : Except PeError α) = .error e := rfl

theorem pure_eq {α : Type} (a : α) : (pure a : Except PeError α) = .ok a := rfl

/-- None of the `size_t` computations of `Parse` wraps: every offset is derived from a
32-bit and two 16-bit values. -/
theorem Parse_offsets (p soh n : Nat) (hp : p < 4294967296) (hsoh : soh < 65536)
    (hn : n < 65536) :
    (szAdd p 4 = p + 4 ∧ szAdd (p + 4) 0 = p + 4 ∧ szAdd (p + 4) 2 = p + 6
      ∧ szAdd (p + 4) 4 = p + 8 ∧ szAdd (p + 4) 8 = p + 12 ∧ szAdd (p + 4) 12 = p + 16
      ∧ szAdd (p + 4) 16 = p + 20 ∧ szAdd (p + 4) 18 = p + 22 ∧ szAdd (p + 4) 20 = p + 24)
    ∧ (szAdd (p + 24) 0x10 = p + 24 + 0x10 ∧ szAdd (p + 24) 0x18 = p + 24 + 0x18
      ∧ szAdd (p + 24) 0x1C = p + 24 + 0x1C ∧ szAdd (p + 24) 0x44 = p + 24 + 0x44
      ∧ szAdd (p + 24) soh = p + 24 + soh ∧ szMul n kSectionSize = 40 * n
      ∧ ¬ n > SIZE_MAX / kSectionSize) := by
  and_intros
  · exact szAdd_eq _ _ (by unfold SIZE_MAX; omega)
  · exact szAdd_eq _ _ (by unfold SIZE_MAX; omega)
  · exact szAdd_eq _ _ (by unfold SIZE_MAX; omega)
  · exact szAdd_eq _ _ (by unfold SIZE_MAX; omega)
  · exact szAdd_eq _ _ (by unfold SIZE_MAX; omega)
  · exact szAdd_eq _ _ (by unfold SIZE_MAX; omega)
  · exact szAdd_eq _ _ (by unfold SIZE_MAX; omega)
  · exact szAdd_eq _ _ (by unfold SIZE_MAX; omega)
  · exact szAdd_eq _ _ (by unfold SIZE_MAX; omega)
  · exact szAdd_eq _ _ (by unfold SIZE_MAX; omega)
  · exact szAdd_eq _ _ (by unfold SIZE_MAX; omega)
  · exact szAdd_eq _ _ (by unfold SIZE_MAX; omega)
  · exact szAdd_eq _ _ (by unfold SIZE_MAX; omega)
  · exact szAdd_eq _ _ (by unfold SIZE_MAX; omega)
  · exact (szMul_eq _ _ (by unfold SIZE_MAX kSectionSize; omega)).trans (Nat.mul_comm _ _)
  · unfold SIZE_MAX kSectionSize; omega

/-- The seven file-header reads succeed once 20 bytes are available at `p + 4`. -/
theorem fileHeader_reads (data : List Byte) (p : Nat) (hp : p < 4294967296)
    (h : p + 24 ≤ data.length) :
    ReadU16 data (p + 4) = .ok (leU16 data (p + 4))
    ∧ ReadU16 data (p + 6) = .ok (leU16 data (p + 6))
    ∧ ReadU32 data (p + 8) = .ok (leU32 data (p + 8))
    ∧ ReadU32 data (p + 12) = .ok (leU32 data (p + 12))
    ∧ ReadU32 data (p + 16) = .ok (leU32 data (p + 16))
    ∧ ReadU16 data (p + 20) = .ok (leU16 data (p + 20))
    ∧ ReadU16 data (p + 22) = .ok (leU16 data (p + 22)) := by
  and_intros
  · exact ReadU16_of_le (by omega) (by unfold SIZE_MAX; omega)
  · exact ReadU16_of_le (by omega) (by unfold SIZE_MAX; omega)
  · exact ReadU32_of_le (by omega) (by unfold SIZE_MAX; omega)
  · exact ReadU32_of_le (by omega) (by unfold SIZE_MAX; omega)
  · exact ReadU32_of_le (by omega) (by unfold SIZE_MAX; omega)
  · exact ReadU16_of_le (by omega) (by unfold SIZE_MAX; omega)
  · exact ReadU16_of_le (by omega) (by unfold SIZE_MAX; omega)

/-- The optional-header reads succeed once `soh >= 0x46` bytes are available at `p + 24`. -/
theorem optionalHeader_reads (data : List Byte) (p soh : Nat) (hp : p < 4294967296)
    (hmin : 0x46 ≤ soh) (h : p + 24 + soh ≤ data.length) :
    ReadU16 data (p + 24) = .ok (leU16 data (p + 24))
    ∧ ReadU32 data (p + 24 + 0x10) = .ok (leU32 data (p + 24 + 0x10))
    ∧ ReadU64 data (p + 24 + 0x18) = .ok (leU64 data (p + 24 + 0x18))
    ∧ ReadU32 data (p + 24 + 0x1C) = .ok (leU32 data (p + 24 + 0x1C))
    ∧ ReadU16 data (p + 24 + 0x44) = .ok (leU16 data (p + 24 + 0x44)) := by
  refine ⟨?_, ?_, ?_, ?_, ?_⟩
  · exact ReadU16_of_le (by omega) (by unfold SIZE_MAX; omega)
  · exact ReadU32_of_le (by omega) (by unfold SIZE_MAX; omega)
  · exact ReadU64_of_le (by omega) (by unfold SIZE_MAX; omega)
  · exact ReadU32_of_le (by omega) (by unfold SIZE_MAX; omega)
  · exact ReadU16_of_le (by omega) (by unfold SIZE_MAX; omega)

/-- The section loop reads the whole table once it fits into the buffer. -/
theorem sectionLoop_table (data : List Byte) (T n : Nat) (hT : T < 8589934592)
    (hn : n < 65536) (h : T + 40 * n ≤ data.length) :
    sectionLoop data T n 0 []
      = .ok ((List.range n).map (fun i => sectionAt data (T + 40 * i))) := by
  rw [sectionLoop_eq data T n 0 [] (by omega) (by unfold SIZE_MAX; omega)]
  simp

set_option maxHeartbeats 1000000 in
theorem Parse_eq_layoutWalk (data : List Byte) : Parse data = layoutWalk data := by
  have hp := leU32_lt data 0x3C
  have hsoh := leU16_lt data (leU32 data 0x3C + 20)
  have hn := leU16_lt data (leU32 data 0x3C + 6)
  have hmd : metadataAt data = metadataAt data := rfl
  unfold layoutWalk
  conv at hmd => rhs; unfold metadataAt
  simp only [] at hmd ⊢
  generalize hpd : leU32 data 0x3C = p at *
  generalize hsohd : leU16 data (p + 20) = soh at *
  generalize hnd : leU16 data (p + 6) = n at *
  by_cases h1 : data.length < 0x40
  · rw [if_pos h1]
    simp [Parse, h1, throw_eq, bind_error]
  rw [if_neg h1]
  have r0 : ReadU16 data 0 = .ok (leU16 data 0) :=
    ReadU16_of_le (by omega) (by unfold SIZE_MAX; omega)
  have r1 : ReadU32 data 0x3C = .ok p := by
    rw [← hpd]; exact ReadU32_of_le (by omega) (by unfold SIZE_MAX; omega)
  by_cases h2 : leU16 data 0 = 0x5A4D
  swap
  · rw [if_pos h2]
    simp [Parse, h1, r0, throw_eq, bind_error, bind_ok, kDosMagic, h2]
  rw [if_neg (not_not.mpr h2)]
  by_cases h3 : data.length < p + 4
  · rw [if_pos h3]
    have b1 : EnsureBounds data p 4 = .error .unexpectedEndOfFile := EnsureBounds_of_gt h3
    simp [Parse, h1, r0, r1, b1, throw_eq, pure_eq, bind_error, bind_ok, kDosMagic, h2]
  rw [if_neg h3]
  have b1 : EnsureBounds data p 4 = .ok () := EnsureBounds_of_le (Nat.le_of_not_lt h3)
  have r2 : ReadU32 data p = .ok (leU32 data p) :=
    ReadU32_of_le (Nat.le_of_not_lt h3) (by unfold SIZE_MAX; omega)
  by_cases h4 : leU32 data p = 0x00004550
  swap
  · rw [if_pos h4]
    simp [Parse, h1, r0, r1, b1, r2, throw_eq, pure_eq, bind_error, bind_ok, kDosMagic,
      kPeMagic, h2, h4]
  rw [if_neg (not_not.mpr h4)]
  by_cases h5 : data.length < p + 24
  · rw [if_pos h5]
    have b2 : EnsureBounds data (p + 4) 20 = .error .unexpectedEndOfFile :=
      EnsureBounds_of_gt (by omega)
    obtain ⟨⟨e1, -⟩, -⟩ := Parse_offsets p soh n hp hsoh hn
    simp [Parse, h1, r0, r1, b1, r2, e1, b2, throw_eq, pure_eq, bind_error, bind_ok, kDosMagic,
      kPeMagic, h2, h4]
  rw [if_neg h5]
  have b2 : EnsureBounds data (p + 4) 20 = .ok () := EnsureBounds_of_le (by omega)
  obtain ⟨f1, f2, f3, f4, f5, f6, f7⟩ := fileHeader_reads data p hp (Nat.le_of_not_lt h5)
  rw [hnd] at f2
  rw [hsohd] at f6
  by_cases h6 : soh < 0x46
  · rw [if_pos h6]
    obtain ⟨⟨e1, e2, e3, e4, e5, e6, e7, e8, e9⟩, -⟩ := Parse_offsets p soh n hp hsoh hn
    simp [Parse, h1, r0, r1, b1, r2, e1, b2, e2, e3, e4, e5, e6, e7, e8, f1, f2, f3, f4, f5,
      f6, f7, throw_eq, pure_eq, bind_error, bind_ok, kDosMagic, kPeMagic, h2, h4, h6]
  rw [if_neg h6]
  have h6 : ¬ soh < 70 := h6
  by_cases h7 : data.length < p + 24 + soh
  · rw [if_pos h7]
    have b3 : EnsureBounds data (p + 24) soh = .error .unexpectedEndOfFile :=
      EnsureBounds_of_gt (by omega)
    obtain ⟨⟨e1, e2, e3, e4, e5, e6, e7, e8, e9⟩, -⟩ := Parse_offsets p soh n hp hsoh hn
    simp [Parse, h1, r0, r1, b1, r2, e1, b2, e2, e3, e4, e5, e6, e7, e8, e9, f1, f2, f3, f4,
      f5, f6, f7, b3, throw_eq, pure_eq, bind_error, bind_ok, kDosMagic, kPeMagic, h2, h4, h6]
  rw [if_neg h7]
  have b3 : EnsureBounds data (p + 24) soh = .ok () := EnsureBounds_of_le (by omega)
  obtain ⟨g1, g2, g3, g4, g5⟩ :=
    optionalHeader_reads data p soh hp (Nat.le_of_not_lt h6) (Nat.le_of_not_lt h7)
  by_cases h8 : leU16 data (p + 24) ≠ 0x10B ∧ leU16 data (p + 24) ≠ 0x20B
  · rw [if_pos h8]
    obtain ⟨⟨e1, e2, e3, e4, e5, e6, e7, e8, e9⟩, -⟩ := Parse_offsets p soh n hp hsoh hn
    simp [Parse, h1, r0, r1, b1, r2, e1, b2, e2, e3, e4, e5, e6, e7, e8, e9, f1, f2, f3, f4,
      f5, f6, f7, b3, g1, throw_eq, pure_eq, bind_error, bind_ok, kDosMagic, kPeMagic,
      kOptionalHeaderMagicPE32, kOptionalHeaderMagicPE32Plus, h2, h4, h6, h8.1, h8.2]
  rw [if_neg h8]
  have hm : leU16 data (p + 24) = 0x10B ∨ leU16 data (p + 24) = 0x20B := by
    omega
  by_cases h9 : data.length < p + 24 + soh + 40 * n
  · rw [if_pos h9]
    have b4 : EnsureBounds data (p + 24 + soh) (40 * n) = .error .unexpectedEndOfFile :=
      EnsureBounds_of_gt (by omega)
    obtain ⟨⟨e1, e2, e3, e4, e5, e6, e7, e8, e9⟩, e10, e11, e12, e13, e14, e15, hov⟩ := Parse_offsets p soh n hp hsoh hn
    rcases hm with hm | hm
    · simp [Parse, h1, r0, r1, b1, r2, e1, b2, e2, e3, e4, e5, e6, e7, e8, e9, f1, f2, f3, f4,
        f5, f6, f7, b3, g1, e10, e11, e12, e13, e14, e15, g2, g3, g4, g5, b4, throw_eq, pure_eq,
        bind_error, bind_ok, kDosMagic, kPeMagic, kOptionalHeaderMagicPE32,
        kOptionalHeaderMagicPE32Plus, h2, h4, h6, hm, hov]
    · simp [Parse, h1, r0, r1, b1, r2, e1, b2, e2, e3, e4, e5, e6, e7, e8, e9, f1, f2, f3, f4,
        f5, f6, f7, b3, g1, e10, e11, e12, e13, e14, e15, g2, g3, g4, g5, b4, throw_eq, pure_eq,
        bind_error, bind_ok, kDosMagic, kPeMagic, kOptionalHeaderMagicPE32,
        kOptionalHeaderMagicPE32Plus, h2, h4, h6, hm, hov]
  rw [if_neg h9]
  have b4 : EnsureBounds data (p + 24 + soh) (40 * n) = .ok () := EnsureBounds_of_le (by omega)
  have sl := sectionLoop_table data (p + 24 + soh) n (by omega) hn (Nat.le_of_not_lt h9)
  obtain ⟨⟨e1, e2, e3, e4, e5, e6, e7, e8, e9⟩, e10, e11, e12, e13, e14, e15, hov⟩ := Parse_offsets p soh n hp hsoh hn
  rw [hmd]
  rcases hm with hm | hm
  · simp [Parse, h1, r0, r1, b1, r2, e1, b2, e2, e3, e4, e5, e6, e7, e8, e9, f1, f2, f3, f4,
      f5, f6, f7, b3, g1, e10, e11, e12, e13, e14, e15, g2, g3, g4, g5, b4, sl, throw_eq, pure_eq,
      bind_error, bind_ok, kDosMagic, kPeMagic, kOptionalHeaderMagicPE32,
      kOptionalHeaderMagicPE32Plus, h2, h4, h6, hm, hov]
  · simp [Parse, h1, r0, r1, b1, r2, e1, b2, e2, e3, e4, e5, e6, e7, e8, e9, f1, f2, f3, f4,
      f5, f6, f7, b3, g1, e10, e11, e12, e13, e14, e15, g2, g3, g4, g5, b4, sl, throw_eq, pure_eq,
      bind_error, bind_ok, kDosMagic, kPeMagic, kOptionalHeaderMagicPE32,
      kOptionalHeaderMagicPE32Plus, h2, h4, h6, hm, hov]

/-! ## Properties of `Parse` and of the binary reader -/

theorem errorMessage_error {α : Type} (e : PeError) :
    errorMessage (Except.error e : Except PeError α) = some e.what := rfl

/-- C1: `Parse` returns metadata exactly on the well-formed buffers: with `p` the dword at
`0x3C`, `n` the word at `p + 6` and `soh` the word at `p + 20`, it succeeds if and only if
the length is at least 64, the word at 0 is `0x5A4D`, `p + 4` fits, the dword at `p` is
`0x00004550`, `p + 24` fits, `soh >= 0x46`, `p + 24 + soh` fits, the word at `p + 24` is
`0x10B` or `0x20B`, and `p + 24 + soh + 40 * n` fits. -/
theorem C1_parse_succeeds_iff_well_formed (data : List Byte) :
    (∃ m, Parse data = .ok m) ↔
      (64 ≤ data.length
        ∧ leU16 data 0 = 0x5A4D
        ∧ leU32 data 0x3C + 4 ≤ data.length
        ∧ leU32 data (leU32 data 0x3C) = 0x00004550
        ∧ leU32 data 0x3C + 24 ≤ data.length
        ∧ 0x46 ≤ leU16 data (leU32 data 0x3C + 20)
        ∧ leU32 data 0x3C + 24 + leU16 data (leU32 data 0x3C + 20) ≤ data.length
        ∧ (leU16 data (leU32 data 0x3C + 24) = 0x10B
            ∨ leU16 data (leU32 data 0x3C + 24) = 0x20B)
        ∧ leU32 data 0x3C + 24 + leU16 data (leU32 data 0x3C + 20)
            + 40 * leU16 data (leU32 data 0x3C + 6) ≤ data.length) := by
  rw [Parse_eq_layoutWalk]
  unfold layoutWalk
  simp only []
  generalize leU32 data 0x3C = p
  generalize leU16 data (p + 20) = soh
  generalize leU16 data (p + 6) = n
  generalize leU16 data (p + 24) = magic
  generalize leU16 data 0 = dos
  generalize leU32 data p = sig
  constructor
  · intro ⟨m, hm⟩
    split_ifs at hm
    all_goals first | cases hm; done | (and_intros <;> omega)
  · intro ⟨h1, h2, h3, h4, h5, h6, h7, h8, h9⟩
    refine ⟨metadataAt data, ?_⟩
    have c2 : ¬ dos ≠ 23117 := not_not.mpr h2
    have c4 : ¬ sig ≠ 17744 := not_not.mpr h4
    have c8 : ¬ (magic ≠ 267 ∧ magic ≠ 523) := fun hne => by omega
    rw [if_neg (Nat.not_lt.mpr h1), if_neg c2, if_neg (Nat.not_lt.mpr h3), if_neg c4,
      if_neg (Nat.not_lt.mpr h5), if_neg (Nat.not_lt.mpr h6), if_neg (Nat.not_lt.mpr h7),
      if_neg c8, if_neg (Nat.not_lt.mpr h9)]

set_option maxRecDepth 100000 in
/-- C1 at two concrete images: the PE32+ sample is accepted, the same image without its
last byte is not. -/
theorem C1_parse_succeeds_iff_well_formed_witness :
    (∃ m, Parse samplePe32Plus = .ok m) ∧ ¬ (∃ m, Parse (samplePe32Plus.take 197) = .ok m) :=
  ⟨(C1_parse_succeeds_iff_well_formed samplePe32Plus).2 (by decide),
   fun h => absurd ((C1_parse_succeeds_iff_well_formed (samplePe32Plus.take 197)).1 h)
     (by decide)⟩

theorem leU16_eq_dosMagic_iff (data : List Byte) :
    leU16 data 0 = 0x5A4D ↔ (byteAt data 0 = 0x4D ∧ byteAt data 1 = 0x5A) := by
  have h0 := byteAt_lt data 0
  have h1 := byteAt_lt data 1
  rw [leU16_eq]
  simp only [Nat.zero_add]
  omega

theorem leU32_eq_peMagic_iff (data : List Byte) (p : Nat) :
    leU32 data p = 0x00004550 ↔
      (byteAt data p = 0x50 ∧ byteAt data (p + 1) = 0x45 ∧ byteAt data (p + 2) = 0
        ∧ byteAt data (p + 3) = 0) := by
  have h0 := byteAt_lt data p
  have h1 := byteAt_lt data (p + 1)
  have h2 := byteAt_lt data (p + 2)
  have h3 := byteAt_lt data (p + 3)
  rw [leU32_eq]
  omega

/-- C2: for every buffer `Parse` fails with the message of the first failing step of the
layout walk, the steps being tried in this order: length below 64, DOS signature, room for
the PE signature, PE signature, room for the file header, minimum optional-header size,
room for the optional header, optional-header magic, room for the section table; when no
step fails there is no error. -/
theorem C2_error_of_first_failing_step (data : List Byte) :
    errorMessage (Parse data) =
      if data.length < 64 then
        some "File too small to contain a valid DOS header."
      else if leU16 data 0 ≠ 0x5A4D then
        some "Invalid DOS signature. Not a PE file."
      else if data.length < leU32 data 0x3C + 4 then
        some "Unexpected end of file while reading PE data."
      else if leU32 data (leU32 data 0x3C) ≠ 0x00004550 then
        some "Invalid PE signature."
      else if data.length < leU32 data 0x3C + 4 + 20 then
        some "Unexpected end of file while reading PE data."
      else if leU16 data (leU32 data 0x3C + 20) < 0x46 then
        some "Optional header is too small."
      else if data.length < leU32 data 0x3C + 24 + leU16 data (leU32 data 0x3C + 20) then
        some "Unexpected end of file while reading PE data."
      else if leU16 data (leU32 data 0x3C + 24) ≠ 0x10B
          ∧ leU16 data (leU32 data 0x3C + 24) ≠ 0x20B then
        some "Unknown optional header magic."
      else if data.length < leU32 data 0x3C + 24 + leU16 data (leU32 data 0x3C + 20)
          + 40 * leU16 data (leU32 data 0x3C + 6) then
        some "Unexpected end of file while reading PE data."
      else
        none := by
  rw [Parse_eq_layoutWalk]
  unfold layoutWalk
  simp only [apply_ite errorMessage]
  rfl

set_option maxRecDepth 100000 in
/-- C2 at a concrete image: with an optional-header size of `0x45` the error is the one of
the size check, although the buffer also ends inside the optional header and its magic is
not a known one. -/
theorem C2_error_of_first_failing_step_witness :
    errorMessage (Parse (sampleDosHeader ++ sampleFileHeader 1 0x45 ++ [0xFF, 0xFF]))
      = some "Optional header is too small." :=
  (C2_error_of_first_failing_step
    (sampleDosHeader ++ sampleFileHeader 1 0x45 ++ [0xFF, 0xFF])).trans (by decide)

/-- C3: every buffer shorter than 64 bytes, the empty one included, fails with
"File too small to contain a valid DOS header.", whatever its bytes. -/
theorem C3_short_buffer_too_small (data : List Byte) (h : data.length < 64) :
    errorMessage (Parse data) = some "File too small to contain a valid DOS header." := by
  rw [Parse_eq_layoutWalk]
  unfold layoutWalk
  simp only []
  rw [if_pos h]
  rfl

/-- C3 at the empty buffer and at the first 63 bytes of a DOS header. -/
theorem C3_short_buffer_too_small_witness :
    errorMessage (Parse []) = some "File too small to contain a valid DOS header."
    ∧ errorMessage (Parse (sampleDosHeader.take 63))
        = some "File too small to contain a valid DOS header." :=
  ⟨C3_short_buffer_too_small [] (by decide),
   C3_short_buffer_too_small (sampleDosHeader.take 63) (by decide)⟩

/-- C4, as stated, fails: the 4-byte buffer `7F 45 4C 46` does not start with `4D 5A`, yet
`Parse` reports the too-small error and not the DOS-signature error. -/
theorem C4_counterexample :
    ¬ (byteAt elfMagic 0 = 0x4D ∧ byteAt elfMagic 1 = 0x5A)
    ∧ errorMessage (Parse elfMagic) = some "File too small to contain a valid DOS header."
    ∧ errorMessage (Parse elfMagic) ≠ some "Invalid DOS signature. Not a PE file." := by
  decide

/-- C4 (amended): every buffer of at least 64 bytes whose bytes at offset 0 are not
`4D 5A` fails with "Invalid DOS signature. Not a PE file.", regardless of later content. -/
theorem C4_invalid_dos_signature (data : List Byte) (hlen : 64 ≤ data.length)
    (h : ¬ (byteAt data 0 = 0x4D ∧ byteAt data 1 = 0x5A)) :
    errorMessage (Parse data) = some "Invalid DOS signature. Not a PE file." := by
  rw [Parse_eq_layoutWalk]
  unfold layoutWalk
  simp only []
  rw [if_neg (by omega), if_pos (fun e => h ((leU16_eq_dosMagic_iff data).1 e))]
  rfl

set_option maxRecDepth 100000 in
/-- C4 (amended) at the PE32+ sample with its first byte replaced by `0x4E`. -/
theorem C4_invalid_dos_signature_witness :
    errorMessage (Parse (0x4E :: samplePe32Plus.tail))
      = some "Invalid DOS signature. Not a PE file." :=
  C4_invalid_dos_signature (0x4E :: samplePe32Plus.tail) (by decide) (by decide)

/-- C5: every buffer with a valid DOS header (length at least 64, bytes 0..1 = `4D 5A`) in
which the four bytes at the offset stored in the dword at `0x3C` lie inside the buffer and
are not `50 45 00 00` fails with "Invalid PE signature.". -/
theorem C5_invalid_pe_signature (data : List Byte) (hlen : 64 ≤ data.length)
    (hdos : byteAt data 0 = 0x4D ∧ byteAt data 1 = 0x5A)
    (hin : leU32 data 0x3C + 4 ≤ data.length)
    (hsig : ¬ (byteAt data (leU32 data 0x3C) = 0x50 ∧ byteAt data (leU32 data 0x3C + 1) = 0x45
      ∧ byteAt data (leU32 data 0x3C + 2) = 0 ∧ byteAt data (leU32 data 0x3C + 3) = 0)) :
    errorMessage (Parse data) = some "Invalid PE signature." := by
  rw [Parse_eq_layoutWalk]
  unfold layoutWalk
  simp only []
  rw [if_neg (by omega), if_neg (not_not.mpr ((leU16_eq_dosMagic_iff data).2 hdos)),
    if_neg (by omega), if_pos (fun e => hsig ((leU32_eq_peMagic_iff data _).1 e))]
  rfl

set_option maxRecDepth 100000 in
/-- C5 at a DOS header followed by `50 45 00 01`. -/
theorem C5_invalid_pe_signature_witness :
    errorMessage (Parse (sampleDosHeader ++ [0x50, 0x45, 0, 1] ++ zeros 200))
      = some "Invalid PE signature." :=
  C5_invalid_pe_signature (sampleDosHeader ++ [0x50, 0x45, 0, 1] ++ zeros 200)
    (by decide) (by decide) (by decide) (by decide)

/-- What a successful `Parse` returns, and what the buffer then satisfies. -/
theorem Parse_ok_inv {data : List Byte} {m : PeMetadata} (h : Parse data = .ok m) :
    m = metadataAt data
    ∧ (leU16 data (leU32 data 0x3C + 24) = 0x10B ∨ leU16 data (leU32 data 0x3C + 24) = 0x20B)
    ∧ leU32 data 0x3C + 24 + leU16 data (leU32 data 0x3C + 20)
        + 40 * leU16 data (leU32 data 0x3C + 6) ≤ data.length := by
  rw [Parse_eq_layoutWalk] at h
  unfold layoutWalk at h
  simp only [] at h
  split_ifs at h with h1 h2 h3 h4 h5 h6 h7 h8 h9
  refine ⟨?_, ?_, ?_⟩
  · cases h; rfl
  · omega
  · omega

set_option maxRecDepth 100000 in
theorem Parse_samplePe32Plus : Parse samplePe32Plus = .ok samplePe32PlusMetadata := by rfl

set_option maxRecDepth 100000 in
theorem Parse_samplePe32 : Parse samplePe32 = .ok samplePe32Metadata := by rfl

/-- C6: on success, with `p` the dword at `0x3C`, the returned `FileHeader` holds the
little-endian values at `p+4` (machine), `p+6` (number_of_sections), `p+8`
(time_date_stamp), `p+12` (pointer_to_symbol_table), `p+16` (number_of_symbols), `p+20`
(size_of_optional_header), `p+22` (characteristics), and the `OptionalHeader` has the magic
at `p+24`, the entry point at `p+24+0x10` and the subsystem at `p+24+0x44`. -/
theorem C6_header_fields_round_trip (data : List Byte) (m : PeMetadata)
    (h : Parse data = .ok m) :
    let p := leU32 data 0x3C
    m.file_header =
        { machine := leU16 data (p + 4),
          number_of_sections := leU16 data (p + 6),
          time_date_stamp := leU32 data (p + 8),
          pointer_to_symbol_table := leU32 data (p + 12),
          number_of_symbols := leU32 data (p + 16),
          size_of_optional_header := leU16 data (p + 20),
          characteristics := leU16 data (p + 22) }
    ∧ m.optional_header.magic = leU16 data (p + 24)
    ∧ m.optional_header.address_of_entry_point = leU32 data (p + 24 + 0x10)
    ∧ m.optional_header.subsystem = leU16 data (p + 24 + 0x44) := by
  intro p
  obtain ⟨hm, -, -⟩ := Parse_ok_inv h
  subst hm
  exact ⟨rfl, rfl, rfl, rfl⟩

set_option maxRecDepth 100000 in
/-- C6 at the PE32+ sample: the values placed at the documented offsets come back. -/
theorem C6_header_fields_round_trip_witness :
    Parse samplePe32Plus = .ok samplePe32PlusMetadata
    ∧ samplePe32PlusMetadata.file_header =
        { machine := leU16 samplePe32Plus (0x40 + 4),
          number_of_sections := leU16 samplePe32Plus (0x40 + 6),
          time_date_stamp := leU32 samplePe32Plus (0x40 + 8),
          pointer_to_symbol_table := leU32 samplePe32Plus (0x40 + 12),
          number_of_symbols := leU32 samplePe32Plus (0x40 + 16),
          size_of_optional_header := leU16 samplePe32Plus (0x40 + 20),
          characteristics := leU16 samplePe32Plus (0x40 + 22) }
    ∧ samplePe32PlusMetadata.optional_header.magic = leU16 samplePe32Plus (0x40 + 24)
    ∧ samplePe32PlusMetadata.optional_header.address_of_entry_point
        = leU32 samplePe32Plus (0x40 + 24 + 0x10)
    ∧ samplePe32PlusMetadata.optional_header.subsystem
        = leU16 samplePe32Plus (0x40 + 24 + 0x44) :=
  ⟨Parse_samplePe32Plus,
   C6_header_fields_round_trip samplePe32Plus samplePe32PlusMetadata Parse_samplePe32Plus⟩

/-- C7: on success the section list has exactly `number_of_sections` entries (at most
65,535), and entry `i` is read from `T + 40 * i` with `T = p + 24 +
size_of_optional_header`: its name is the 8 bytes there cut at the first null, and its four
32-bit fields are the little-endian values at sub-offsets 8, 12, 16, 20; the entries are in
file order. -/
theorem C7_section_entries (data : List Byte) (m : PeMetadata) (h : Parse data = .ok m) :
    let T := leU32 data 0x3C + 24 + m.file_header.size_of_optional_header
    m.sections.length = m.file_header.number_of_sections
    ∧ m.sections.length ≤ 65535
    ∧ ∀ i, i < m.file_header.number_of_sections →
        m.sections[i]? = some
          { name := ((data.drop (T + 40 * i)).take 8).takeWhile (fun c => c ≠ 0),
            virtual_size := leU32 data (T + 40 * i + 8),
            virtual_address := leU32 data (T + 40 * i + 12),
            size_of_raw_data := leU32 data (T + 40 * i + 16),
            pointer_to_raw_data := leU32 data (T + 40 * i + 20) } := by
  intro T
  obtain ⟨hm, -, -⟩ := Parse_ok_inv h
  subst hm
  have hn := leU16_lt data (leU32 data 0x3C + 6)
  refine ⟨?_, ?_, ?_⟩
  · simp [metadataAt]
  · simp only [metadataAt, List.length_map, List.length_range]
    omega
  · intro i hi
    have hi' : i < leU16 data (leU32 data 0x3C + 6) := hi
    simp only [metadataAt, List.getElem?_map, List.getElem?_range hi', Option.map_some']
    rfl

set_option maxRecDepth 100000 in
/-- C7 at the PE32 sample with its two sections. -/
theorem C7_section_entries_witness :
    Parse samplePe32 = .ok samplePe32Metadata
    ∧ samplePe32Metadata.sections.length = 2
    ∧ samplePe32Metadata.sections[1]? = some
        { name := ((samplePe32.drop (158 + 40 * 1)).take 8).takeWhile (fun c => c ≠ 0),
          virtual_size := leU32 samplePe32 (158 + 40 * 1 + 8),
          virtual_address := leU32 samplePe32 (158 + 40 * 1 + 12),
          size_of_raw_data := leU32 samplePe32 (158 + 40 * 1 + 16),
          pointer_to_raw_data := leU32 samplePe32 (158 + 40 * 1 + 20) } :=
  ⟨Parse_samplePe32, (C7_section_entries samplePe32 samplePe32Metadata Parse_samplePe32).1,
   (C7_section_entries samplePe32 samplePe32Metadata Parse_samplePe32).2.2 1 (by decide)⟩

/-- C8: on success `is_pe32_plus` is true exactly when the magic is `0x20B` and false
exactly when it is `0x10B`; when false, `image_base` is the little-endian 32-bit value at
optional-header sub-offset `0x1C` (so below `2^32`); when true it is the little-endian
64-bit value of the 8 bytes at sub-offset `0x18`. -/
theorem C8_format_and_image_base (data : List Byte) (m : PeMetadata)
    (h : Parse data = .ok m) :
    let oh := leU32 data 0x3C + 24
    (m.optional_header.is_pe32_plus = true ↔ m.optional_header.magic = 0x20B)
    ∧ (m.optional_header.is_pe32_plus = false ↔ m.optional_header.magic = 0x10B)
    ∧ (m.optional_header.is_pe32_plus = false →
        m.optional_header.image_base = leU32 data (oh + 0x1C)
        ∧ m.optional_header.image_base < 2 ^ 32)
    ∧ (m.optional_header.is_pe32_plus = true →
        m.optional_header.image_base = leU64 data (oh + 0x18)) := by
  intro oh
  obtain ⟨hm, hmagic, -⟩ := Parse_ok_inv h
  subst hm
  have hlt := leU32_lt data (leU32 data 0x3C + 24 + 0x1C)
  simp only [metadataAt, decide_eq_true_eq, decide_eq_false_iff_not]
  refine ⟨trivial, ?_, ?_, ?_⟩
  · constructor
    · intro hne; omega
    · intro he; omega
  · intro hne
    rw [if_neg hne]
    exact ⟨rfl, hlt⟩
  · intro he
    rw [if_pos he]

set_option maxRecDepth 100000 in
/-- C8 at the PE32 sample (32-bit image base `0x00400000` read at `0x1C`). -/
theorem C8_format_and_image_base_witness :
    Parse samplePe32 = .ok samplePe32Metadata
    ∧ samplePe32Metadata.optional_header.is_pe32_plus = false
    ∧ samplePe32Metadata.optional_header.image_base = leU32 samplePe32 (0x40 + 24 + 0x1C)
    ∧ samplePe32Metadata.optional_header.image_base < 2 ^ 32 :=
  ⟨Parse_samplePe32, by rfl,
   (C8_format_and_image_base samplePe32 samplePe32Metadata Parse_samplePe32).2.2.1 (by rfl)⟩

theorem vecAt_isOk (data : List Byte) (i : Nat) (h : i < data.length) :
    ∃ b, vecAt data i = .ok b :=
  ⟨_, vecAt_of_lt h⟩

theorem ReadU16_isOk {data : List Byte} {offset : Nat} (h : offset + 2 ≤ data.length) :
    ∃ v, ReadU16 data offset = .ok v := by
  have w1 := szAdd_le offset 1
  obtain ⟨b0, e0⟩ := vecAt_isOk data offset (by omega)
  obtain ⟨b1, e1⟩ := vecAt_isOk data (szAdd offset 1) (by omega)
  unfold ReadU16
  rw [EnsureBounds_of_le h, bind_ok, e0, bind_ok, e1, bind_ok]
  exact ⟨_, rfl⟩

theorem ReadU32_isOk {data : List Byte} {offset : Nat} (h : offset + 4 ≤ data.length) :
    ∃ v, ReadU32 data offset = .ok v := by
  have w1 := szAdd_le offset 1
  have w2 := szAdd_le offset 2
  have w3 := szAdd_le offset 3
  obtain ⟨b0, e0⟩ := vecAt_isOk data offset (by omega)
  obtain ⟨b1, e1⟩ := vecAt_isOk data (szAdd offset 1) (by omega)
  obtain ⟨b2, e2⟩ := vecAt_isOk data (szAdd offset 2) (by omega)
  obtain ⟨b3, e3⟩ := vecAt_isOk data (szAdd offset 3) (by omega)
  unfold ReadU32
  rw [EnsureBounds_of_le h, bind_ok, e0, bind_ok, e1, bind_ok, e2, bind_ok, e3, bind_ok]
  exact ⟨_, rfl⟩

theorem ReadU64_loop_isOk (data : List Byte) (offset : Nat) :
    ∀ (k i value : Nat), offset + i + k ≤ data.length →
      ∃ v, ReadU64.loop data offset k i value = .ok v := by
  intro k
  induction k with
  | zero =>
    intro i value _
    exact ⟨value, rfl⟩
  | succ k ih =>
    intro i value hL
    have w := szAdd_le offset i
    obtain ⟨b, e⟩ := vecAt_isOk data (szAdd offset i) (by omega)
    unfold ReadU64.loop
    rw [e, bind_ok]
    exact ih (i + 1) _ (by omega)

theorem ReadU64_isOk {data : List Byte} {offset : Nat} (h : offset + 8 ≤ data.length) :
    ∃ v, ReadU64 data offset = .ok v := by
  unfold ReadU64
  rw [EnsureBounds_of_le h, bind_ok]
  exact ReadU64_loop_isOk data offset 8 0 0 (by omega)

/-- A read whose bounds check passes and whose indices stay inside the buffer fails with
the end-of-file message exactly when the check fails. -/
theorem eof_iff_of_isOk {α : Type} {r : Except PeError α} {L bound : Nat}
    (hgt : L < bound → r = .error .unexpectedEndOfFile)
    (hle : bound ≤ L → ∃ v, r = .ok v) :
    errorMessage r = some "Unexpected end of file while reading PE data." ↔ L < bound := by
  constructor
  · intro he
    by_contra hn
    obtain ⟨v, hv⟩ := hle (by omega)
    rw [hv] at he
    cases he
  · intro hlt
    rw [hgt hlt]
    rfl

/-- C9: the bounds check never wraps. For every buffer and all `offset` and `size`
(in particular all `size_t` values, also those whose machine sum overflows),
`EnsureBounds(offset, size)` passes if and only if `offset + size <= length` in unbounded
integers; hence `ReadU16/ReadU32/ReadU64(offset)` fail with "Unexpected end of file ..."
exactly when `offset + 2/4/8 > length`, and otherwise return a value, no byte access
having left the buffer. -/
theorem C9_bounds_check_never_wraps (data : List Byte) (offset size : Nat) :
    (EnsureBounds data offset size = .ok () ↔ offset + size ≤ data.length)
    ∧ (errorMessage (EnsureBounds data offset size)
          = some "Unexpected end of file while reading PE data."
        ↔ data.length < offset + size)
    ∧ (errorMessage (ReadU16 data offset) = some "Unexpected end of file while reading PE data."
        ↔ data.length < offset + 2)
    ∧ (errorMessage (ReadU32 data offset) = some "Unexpected end of file while reading PE data."
        ↔ data.length < offset + 4)
    ∧ (errorMessage (ReadU64 data offset) = some "Unexpected end of file while reading PE data."
        ↔ data.length < offset + 8)
    ∧ (offset + 2 ≤ data.length → ∃ v, ReadU16 data offset = .ok v)
    ∧ (offset + 4 ≤ data.length → ∃ v, ReadU32 data offset = .ok v)
    ∧ (offset + 8 ≤ data.length → ∃ v, ReadU64 data offset = .ok v) :=
  ⟨EnsureBounds_eq_ok_iff data offset size,
   eof_iff_of_isOk EnsureBounds_of_gt (fun h => ⟨(), EnsureBounds_of_le h⟩),
   eof_iff_of_isOk ReadU16_of_gt ReadU16_isOk,
   eof_iff_of_isOk ReadU32_of_gt ReadU32_isOk,
   eof_iff_of_isOk ReadU64_of_gt ReadU64_isOk,
   ReadU16_isOk, ReadU32_isOk, ReadU64_isOk⟩

/-- C9 at the largest `size_t` offset: the machine sum `SIZE_MAX + 2` wraps to 1, which
would fit into a 4-byte buffer, but the check fails. -/
theorem C9_bounds_check_never_wraps_witness :
    szAdd SIZE_MAX 2 = 1
    ∧ errorMessage (EnsureBounds (zeros 4) SIZE_MAX 2)
        = some "Unexpected end of file while reading PE data."
    ∧ errorMessage (ReadU16 (zeros 4) SIZE_MAX)
        = some "Unexpected end of file while reading PE data." :=
  ⟨by decide, (C9_bounds_check_never_wraps (zeros 4) SIZE_MAX 2).2.1.2 (by decide),
   (C9_bounds_check_never_wraps (zeros 4) SIZE_MAX 2).2.2.1.2 (by decide)⟩

theorem leU16_eq_sum (data : List Byte) (o : Nat) :
    leU16 data o = ∑ i in Finset.range 2, byteAt data (o + i) * 256 ^ i := by
  rw [leU16_eq]
  simp [Finset.sum_range_succ]
  omega

theorem leU32_eq_sum (data : List Byte) (o : Nat) :
    leU32 data o = ∑ i in Finset.range 4, byteAt data (o + i) * 256 ^ i := by
  rw [leU32_eq]
  simp [Finset.sum_range_succ]
  omega

theorem leU64_eq_sum (data : List Byte) (o : Nat) :
    leU64 data o = ∑ i in Finset.range 8, byteAt data (o + i) * 256 ^ i := by
  rw [leU64_eq]
  simp [Finset.sum_range_succ]
  omega

/-- C10: little-endian decoding. For every buffer (a vector, so of length at most
`SIZE_MAX`) and every in-bounds offset, `ReadU16`, `ReadU32` and `ReadU64` return the sum
over `i < N` of `data[offset + i] * 256 ^ i` for `N = 2, 4, 8`: the shift-and-or
expressions and the loop lose no bit to promotion or truncation. -/
theorem C10_little_endian_decoding (data : List Byte) (offset : Nat)
    (hsize : data.length ≤ SIZE_MAX) :
    (offset + 2 ≤ data.length →
      ReadU16 data offset = .ok (∑ i in Finset.range 2, byteAt data (offset + i) * 256 ^ i))
    ∧ (offset + 4 ≤ data.length →
      ReadU32 data offset = .ok (∑ i in Finset.range 4, byteAt data (offset + i) * 256 ^ i))
    ∧ (offset + 8 ≤ data.length →
      ReadU64 data offset = .ok (∑ i in Finset.range 8, byteAt data (offset + i) * 256 ^ i)) := by
  refine ⟨fun h => ?_, fun h => ?_, fun h => ?_⟩
  · rw [← leU16_eq_sum]
    exact ReadU16_of_le h (by omega)
  · rw [← leU32_eq_sum]
    exact ReadU32_of_le h (by omega)
  · rw [← leU64_eq_sum]
    exact ReadU64_of_le h (by omega)

/-- C10 at the sample optional header: the 8 bytes `EF BE AD DE 00 00 40 00` at offset
`0x18` decode to `0x00400000DEADBEEF`, the 4 bytes at `0x1C` to `0x00400000` and the 2
bytes at `0` to `0x20B`. -/
theorem C10_little_endian_decoding_witness :
    (sampleOptionalHeader 0x0B 0x02).length ≤ SIZE_MAX
    ∧ ReadU64 (sampleOptionalHeader 0x0B 0x02) 0x18
        = .ok (∑ i in Finset.range 8, byteAt (sampleOptionalHeader 0x0B 0x02) (0x18 + i) * 256 ^ i)
    ∧ ReadU64 (sampleOptionalHeader 0x0B 0x02) 0x18 = .ok 0x00400000DEADBEEF
    ∧ ReadU32 (sampleOptionalHeader 0x0B 0x02) 0x1C = .ok 0x00400000
    ∧ ReadU16 (sampleOptionalHeader 0x0B 0x02) 0 = .ok 0x20B :=
  ⟨by decide,
   (C10_little_endian_decoding (sampleOptionalHeader 0x0B 0x02) 0x18 (by decide)).2.2 (by decide),
   by rfl, by rfl, by rfl⟩

theorem byteAt_eq_zero_iff (data : List Byte) (i : Nat) :
    byteAt data i = 0 ↔ data.getD i 0 = 0 := by
  unfold byteAt
  constructor
  · intro h
    exact Fin.ext h
  · intro h
    rw [h]
    rfl

theorem getD_eq_getElem (data : List Byte) (i : Nat) (h : i < data.length) :
    data.getD i 0 = data[i] := by
  rw [List.getD_eq_getElem?_getD, List.getElem?_eq_getElem h]
  rfl

/-- The string cut at the first null byte is a prefix `data[offset .. offset + k)`, with
`k` the index of the first null byte, or `max_len` without one. -/
theorem fixedString_spec (data : List Byte) :
    ∀ (max_len offset : Nat), offset + max_len ≤ data.length →
      ∃ k, k ≤ max_len
        ∧ (∀ j, j < k → byteAt data (offset + j) ≠ 0)
        ∧ (k < max_len → byteAt data (offset + k) = 0)
        ∧ fixedString data offset max_len = (data.drop offset).take k := by
  intro max_len
  induction max_len with
  | zero =>
    intro offset _
    exact ⟨0, Nat.le_refl 0, fun j hj => absurd hj (Nat.not_lt_zero j),
      fun h => absurd h (Nat.lt_irrefl 0), by simp [fixedString_zero]⟩
  | succ n ih =>
    intro offset hL
    have hlt : offset < data.length := by omega
    rw [fixedString_succ data offset n hlt]
    by_cases hz : data.getD offset 0 = 0
    · refine ⟨0, Nat.zero_le _, fun j hj => absurd hj (Nat.not_lt_zero j), fun _ => ?_, ?_⟩
      · exact (byteAt_eq_zero_iff data (offset + 0)).2 hz
      · rw [if_pos hz]; rfl
    · obtain ⟨k, hk, hnz, hend, hs⟩ := ih (offset + 1) (by omega)
      refine ⟨k + 1, by omega, ?_, ?_, ?_⟩
      · intro j hj
        cases j with
        | zero => exact fun h0 => hz ((byteAt_eq_zero_iff data (offset + 0)).1 h0)
        | succ j =>
          have := hnz j (by omega)
          rwa [Nat.add_assoc, Nat.add_comm 1 j] at this
      · intro hk1
        have := hend (by omega)
        rwa [Nat.add_assoc, Nat.add_comm 1 k] at this
      · rw [if_neg hz, hs, List.drop_eq_getElem_cons hlt, List.take_succ_cons,
          getD_eq_getElem data offset hlt]

theorem not_mem_take_of_byteAt_ne (data : List Byte) (offset k : Nat)
    (hk : offset + k ≤ data.length) (hnz : ∀ j, j < k → byteAt data (offset + j) ≠ 0) :
    (0 : Byte) ∉ (data.drop offset).take k := by
  intro hmem
  obtain ⟨j, hj, he⟩ := List.mem_iff_getElem.1 hmem
  have hjk : j < k := by
    rw [List.length_take, List.length_drop] at hj
    omega
  rw [List.getElem_take, List.getElem_drop] at he
  apply hnz j hjk
  rw [byteAt_eq_zero_iff, getD_eq_getElem data (offset + j) (by omega)]
  exact he

/-- C11: for `offset + max_len <= length`, `ReadString(offset, max_len)` returns the
bytes `data[offset .. offset + k)`, where `k` is the index of the first null byte among
the `max_len` bytes, or `max_len` if none is null; the result has `k <= max_len` bytes and
no null byte. For `offset + max_len > length` it fails with "Unexpected end of file ...". -/
theorem C11_read_string (data : List Byte) (offset max_len : Nat)
    (hsize : data.length ≤ SIZE_MAX) :
    (offset + max_len ≤ data.length →
      ∃ k, k ≤ max_len
        ∧ (∀ j, j < k → byteAt data (offset + j) ≠ 0)
        ∧ (k < max_len → byteAt data (offset + k) = 0)
        ∧ ReadString data offset max_len = .ok ((data.drop offset).take k)
        ∧ ((data.drop offset).take k).length = k
        ∧ (0 : Byte) ∉ (data.drop offset).take k)
    ∧ (data.length < offset + max_len →
        errorMessage (ReadString data offset max_len)
          = some "Unexpected end of file while reading PE data.") := by
  constructor
  · intro h
    obtain ⟨k, hk, hnz, hend, hs⟩ := fixedString_spec data max_len offset h
    refine ⟨k, hk, hnz, hend, ?_, ?_, ?_⟩
    · rw [ReadString_of_le h (by omega), hs]
    · rw [List.length_take, List.length_drop]
      omega
    · exact not_mem_take_of_byteAt_ne data offset k (by omega) hnz
  · intro h
    rw [ReadString_of_gt h]
    rfl

/-- C11 at the sample sections: 8 non-null bytes give an 8-character name, a null at byte
index 3 gives a 3-character name whatever follows it, and a read past the end fails. -/
theorem C11_read_string_witness :
    sampleRsrcSection.length ≤ SIZE_MAX
    ∧ ReadString sampleRsrcSection 0 8 = .ok [0x2E, 0x72, 0x73, 0x72, 0x63, 0x5F, 0x30, 0x31]
    ∧ ReadString [0x61, 0x62, 0x63, 0, 0x64, 0, 0x65, 0x66] 0 8 = .ok [0x61, 0x62, 0x63]
    ∧ errorMessage (ReadString sampleRsrcSection 33 8)
        = some "Unexpected end of file while reading PE data." :=
  ⟨by decide, by rfl, by rfl,
   (C11_read_string sampleRsrcSection 33 8 (by decide)).2 (by decide)⟩

/-- C12: `MachineToString` and `SubsystemToString` are total and return "Unknown" exactly
for the unmapped codes: `MachineToString c = "Unknown"` iff `c` is none of `0x014C`,
`0x8664`, `0x01C0`, `0x01C4`, `0xAA64`, `0x0200`, `0x01F0`, and `SubsystemToString c =
"Unknown"` iff `c` is none of 1, 2, 3, 5, 7, 9, 10, 11, 12, 13, 14, 16; `0x8664` maps to
"x64", subsystem 3 to "Windows CUI", and `0xFFFF` to "Unknown" in both. -/
theorem C12_symbolic_lookup_tables (c : Nat) :
    (MachineToString c = "Unknown"
      ↔ c ∉ [0x014C, 0x8664, 0x01C0, 0x01C4, 0xAA64, 0x0200, 0x01F0])
    ∧ (SubsystemToString c = "Unknown" ↔ c ∉ [1, 2, 3, 5, 7, 9, 10, 11, 12, 13, 14, 16])
    ∧ MachineToString 0x8664 = "x64"
    ∧ SubsystemToString 3 = "Windows CUI"
    ∧ MachineToString 0xFFFF = "Unknown"
    ∧ SubsystemToString 0xFFFF = "Unknown" := by
  refine ⟨?_, ?_, by decide, by decide, by decide, by decide⟩
  · unfold MachineToString
    split <;> simp_all
  · unfold SubsystemToString
    split <;> simp_all

/-- C12 at three codes of each table. -/
theorem C12_symbolic_lookup_tables_witness :
    MachineToString 0x014C = "x86" ∧ MachineToString 0xAA64 = "ARM64"
    ∧ (MachineToString 0x014D = "Unknown" ↔ 0x014D ∉ [0x014C, 0x8664, 0x01C0, 0x01C4,
        0xAA64, 0x0200, 0x01F0])
    ∧ SubsystemToString 16 = "Windows Boot Application"
    ∧ (SubsystemToString 4 = "Unknown" ↔ 4 ∉ [1, 2, 3, 5, 7, 9, 10, 11, 12, 13, 14, 16]) :=
  ⟨by decide, by decide, (C12_symbolic_lookup_tables 0x014D).1, by decide,
   (C12_symbolic_lookup_tables 4).2.1⟩

theorem ReadU16_lt {data : List Byte} {offset v : Nat} (h : ReadU16 data offset = .ok v) :
    v < 65536 := by
  unfold ReadU16 at h
  cases hb : EnsureBounds data offset 2 with
  | error e => rw [hb] at h; cases h
  | ok u =>
    rw [hb, bind_ok] at h
    cases h0 : vecAt data offset with
    | error e => rw [h0] at h; cases h
    | ok b0 =>
      rw [h0, bind_ok] at h
      cases h1 : vecAt data (szAdd offset 1) with
      | error e => rw [h1] at h; cases h
      | ok b1 =>
        rw [h1, bind_ok] at h
        cases h
        exact Nat.mod_lt _ (by decide)

theorem layoutWalk_ne_overflow (data : List Byte) :
    layoutWalk data ≠ .error .sectionTableOverflow := by
  unfold layoutWalk
  simp only []
  intro h
  split_ifs at h <;> cases h

theorem errorMessage_eq_overflow_iff {α : Type} (r : Except PeError α) :
    errorMessage r = some "Section table size overflows address space."
      ↔ r = .error .sectionTableOverflow := by
  constructor
  · intro h
    cases r with
    | ok v => cases h
    | error e =>
      cases e <;> first | rfl | (exact absurd (Option.some.inj h) (by decide))
  · intro h
    rw [h]
    rfl

/-- C17: the section-table-overflow error is unreachable. A value returned by `ReadU16`
(such as `number_of_sections`) is at most 65,535, its product with 40 at most 2,621,400,
and it never exceeds `SIZE_MAX / 40`; so for no buffer does `Parse` fail with
"Section table size overflows address space.". -/
theorem C17_section_overflow_unreachable (data : List Byte) :
    (∀ offset v, ReadU16 data offset = .ok v →
      v ≤ 65535 ∧ v * kSectionSize ≤ 2621400 ∧ ¬ v > SIZE_MAX / kSectionSize)
    ∧ Parse data ≠ .error .sectionTableOverflow
    ∧ errorMessage (Parse data) ≠ some "Section table size overflows address space." := by
  refine ⟨?_, ?_, ?_⟩
  · intro offset v h
    have hv := ReadU16_lt h
    unfold kSectionSize SIZE_MAX
    omega
  · rw [Parse_eq_layoutWalk]
    exact layoutWalk_ne_overflow data
  · rw [Parse_eq_layoutWalk]
    exact fun h => layoutWalk_ne_overflow data ((errorMessage_eq_overflow_iff _).1 h)

set_option maxRecDepth 100000 in
/-- C17 at an image whose `number_of_sections` is `0xFFFF`: the count passes the overflow
test and the parse ends with the end-of-file error of the bounds check. -/
theorem C17_section_overflow_unreachable_witness :
    ReadU16 maxSectionsImage (0x40 + 6) = .ok 0xFFFF
    ∧ (0xFFFF ≤ 65535 ∧ 0xFFFF * kSectionSize ≤ 2621400 ∧ ¬ 0xFFFF > SIZE_MAX / kSectionSize)
    ∧ errorMessage (Parse maxSectionsImage)
        = some "Unexpected end of file while reading PE data."
    ∧ errorMessage (Parse maxSectionsImage)
        ≠ some "Section table size overflows address space." :=
  ⟨by rfl,
   (C17_section_overflow_unreachable maxSectionsImage).1 (0x40 + 6) 0xFFFF (by rfl),
   by decide, (C17_section_overflow_unreachable maxSectionsImage).2.2⟩

/-- C13: section-table size arithmetic does not wrap. The guard `n > SIZE_MAX / 40` of
`Parse` holds exactly when the product `n * 40` would exceed `SIZE_MAX`, and when it does
not hold the `size_t` product is the integer product. For every buffer that reaches the
section-table step `Parse` therefore fails with "Section table size overflows address
space." if the product would exceed `SIZE_MAX`, and otherwise checks exactly `n * 40`
bytes at the section-table offset: a table that does not fit is rejected with the
end-of-file error, and only a table that fits is read. -/
theorem C13_section_table_size_no_wrap :
    (∀ n : Nat,
      (n > SIZE_MAX / kSectionSize ↔ SIZE_MAX < n * kSectionSize)
      ∧ (¬ n > SIZE_MAX / kSectionSize → szMul n kSectionSize = n * kSectionSize))
    ∧ (∀ data : List Byte,
        64 ≤ data.length → leU16 data 0 = 0x5A4D →
        leU32 data 0x3C + 4 ≤ data.length → leU32 data (leU32 data 0x3C) = 0x00004550 →
        leU32 data 0x3C + 24 ≤ data.length → 0x46 ≤ leU16 data (leU32 data 0x3C + 20) →
        leU32 data 0x3C + 24 + leU16 data (leU32 data 0x3C + 20) ≤ data.length →
        (leU16 data (leU32 data 0x3C + 24) = 0x10B
          ∨ leU16 data (leU32 data 0x3C + 24) = 0x20B) →
        errorMessage (Parse data) =
          if SIZE_MAX < leU16 data (leU32 data 0x3C + 6) * 40 then
            some "Section table size overflows address space."
          else if data.length < leU32 data 0x3C + 24 + leU16 data (leU32 data 0x3C + 20)
              + leU16 data (leU32 data 0x3C + 6) * 40 then
            some "Unexpected end of file while reading PE data."
          else
            none) := by
  constructor
  · intro n
    unfold kSectionSize SIZE_MAX
    constructor
    · omega
    · intro h
      unfold szMul SIZE_MAX
      omega
  · intro data h1 h2 h3 h4 h5 h6 h7 h8
    have hn := leU16_lt data (leU32 data 0x3C + 6)
    rw [Parse_eq_layoutWalk]
    unfold layoutWalk
    simp only []
    generalize leU32 data 0x3C = p at *
    generalize leU16 data (p + 20) = soh at *
    generalize leU16 data (p + 6) = n at *
    generalize leU16 data (p + 24) = magic at *
    generalize leU16 data 0 = dos at *
    generalize leU32 data p = sig at *
    have c2 : ¬ dos ≠ 23117 := not_not.mpr h2
    have c4 : ¬ sig ≠ 17744 := not_not.mpr h4
    have c8 : ¬ (magic ≠ 267 ∧ magic ≠ 523) := fun hne => by omega
    have c0 : ¬ SIZE_MAX < n * 40 := by unfold SIZE_MAX; omega
    rw [if_neg (Nat.not_lt.mpr h1), if_neg c2, if_neg (Nat.not_lt.mpr h3), if_neg c4,
      if_neg (Nat.not_lt.mpr h5), if_neg (Nat.not_lt.mpr h6), if_neg (Nat.not_lt.mpr h7),
      if_neg c8, if_neg c0, Nat.mul_comm n 40]
    split_ifs <;> rfl

set_option maxRecDepth 100000 in
/-- C13 at `n = SIZE_MAX / 40 + 1`, where the `size_t` product would wrap to 24 and the
guard holds, and at the PE32 sample without its last byte, whose two-entry table does not
fit. -/
theorem C13_section_table_size_no_wrap_witness :
    (461168601842738791 > SIZE_MAX / kSectionSize
      ∧ szMul 461168601842738791 kSectionSize = 24)
    ∧ errorMessage (Parse (samplePe32.take 237))
        = some "Unexpected end of file while reading PE data." :=
  ⟨⟨(C13_section_table_size_no_wrap.1 461168601842738791).1.2 (by decide), by decide⟩,
   (C13_section_table_size_no_wrap.2 (samplePe32.take 237) (by decide) (by decide)
      (by decide) (by decide) (by decide) (by decide) (by decide) (by decide)).trans
     (by decide)⟩

/-- C14: the minimum optional-header size makes the optional-header reads safe. When
`size_of_optional_header >= 0x46` and the bounds check of that many bytes at the
optional-header offset `oh` has passed, the reads of the magic (sub-offset 0, 2 bytes),
the entry point (`0x10`, 4 bytes), the image base (`0x18`, 8 bytes, or `0x1C`, 4 bytes)
and the subsystem (`0x44`, 2 bytes) lie inside the optional header, their offsets do not
wrap, and each of them returns the little-endian value stored there. -/
theorem C14_optional_header_reads_safe (data : List Byte) (oh soh : Nat)
    (hsize : data.length ≤ SIZE_MAX) (hmin : 0x46 ≤ soh)
    (hb : EnsureBounds data oh soh = .ok ()) :
    (0 + 2 ≤ soh ∧ 0x10 + 4 ≤ soh ∧ 0x18 + 8 ≤ soh ∧ 0x1C + 4 ≤ soh ∧ 0x44 + 2 ≤ soh)
    ∧ oh + soh ≤ data.length
    ∧ ReadU16 data oh = .ok (leU16 data oh)
    ∧ (szAdd oh 0x10 = oh + 0x10
        ∧ ReadU32 data (szAdd oh 0x10) = .ok (leU32 data (oh + 0x10)))
    ∧ (szAdd oh 0x18 = oh + 0x18
        ∧ ReadU64 data (szAdd oh 0x18) = .ok (leU64 data (oh + 0x18)))
    ∧ (szAdd oh 0x1C = oh + 0x1C
        ∧ ReadU32 data (szAdd oh 0x1C) = .ok (leU32 data (oh + 0x1C)))
    ∧ (szAdd oh 0x44 = oh + 0x44
        ∧ ReadU16 data (szAdd oh 0x44) = .ok (leU16 data (oh + 0x44))) := by
  have hfit : oh + soh ≤ data.length := (EnsureBounds_eq_ok_iff data oh soh).1 hb
  have e1 : szAdd oh 0x10 = oh + 0x10 := szAdd_eq _ _ (by omega)
  have e2 : szAdd oh 0x18 = oh + 0x18 := szAdd_eq _ _ (by omega)
  have e3 : szAdd oh 0x1C = oh + 0x1C := szAdd_eq _ _ (by omega)
  have e4 : szAdd oh 0x44 = oh + 0x44 := szAdd_eq _ _ (by omega)
  refine ⟨by omega, hfit, ReadU16_of_le (by omega) (by omega), ⟨e1, ?_⟩, ⟨e2, ?_⟩, ⟨e3, ?_⟩,
    ⟨e4, ?_⟩⟩
  · rw [e1]; exact ReadU32_of_le (by omega) (by omega)
  · rw [e2]; exact ReadU64_of_le (by omega) (by omega)
  · rw [e3]; exact ReadU32_of_le (by omega) (by omega)
  · rw [e4]; exact ReadU16_of_le (by omega) (by omega)

set_option maxRecDepth 100000 in
/-- C14 at the optional header of the PE32+ sample (offset `0x58`, `0x46` bytes, ending
40 bytes before the end of the image). -/
theorem C14_optional_header_reads_safe_witness :
    samplePe32Plus.length ≤ SIZE_MAX ∧ 0x46 ≤ 0x46
    ∧ EnsureBounds samplePe32Plus 0x58 0x46 = .ok ()
    ∧ ReadU64 samplePe32Plus (szAdd 0x58 0x18) = .ok (leU64 samplePe32Plus (0x58 + 0x18))
    ∧ ReadU16 samplePe32Plus (szAdd 0x58 0x44) = .ok (leU16 samplePe32Plus (0x58 + 0x44)) :=
  ⟨by decide, by decide, by rfl,
   (C14_optional_header_reads_safe samplePe32Plus 0x58 0x46 (by decide) (by decide)
      (by rfl)).2.2.2.2.1.2,
   (C14_optional_header_reads_safe samplePe32Plus 0x58 0x46 (by decide) (by decide)
      (by rfl)).2.2.2.2.2.2.2⟩

theorem Parse_of_wellFormed {data : List Byte} (h : wellFormed data) :
    Parse data = .ok (metadataAt data) := by
  obtain ⟨h1, h2, h3, h4, h5, h6, h7, h8, h9⟩ := h
  rw [Parse_eq_layoutWalk]
  unfold layoutWalk
  simp only []
  generalize leU32 data 0x3C = p at *
  generalize leU16 data (p + 20) = soh at *
  generalize leU16 data (p + 6) = n at *
  generalize leU16 data (p + 24) = magic at *
  generalize leU16 data 0 = dos at *
  generalize leU32 data p = sig at *
  have c2 : ¬ dos ≠ 23117 := not_not.mpr h2
  have c4 : ¬ sig ≠ 17744 := not_not.mpr h4
  have c8 : ¬ (magic ≠ 267 ∧ magic ≠ 523) := fun hne => by omega
  rw [if_neg (Nat.not_lt.mpr h1), if_neg c2, if_neg (Nat.not_lt.mpr h3), if_neg c4,
    if_neg (Nat.not_lt.mpr h5), if_neg (Nat.not_lt.mpr h6), if_neg (Nat.not_lt.mpr h7),
    if_neg c8, if_neg (Nat.not_lt.mpr h9)]

theorem wellFormed_of_Parse {data : List Byte} {m : PeMetadata} (h : Parse data = .ok m) :
    wellFormed data := by
  rw [Parse_eq_layoutWalk] at h
  unfold layoutWalk at h
  simp only [] at h
  unfold wellFormed
  generalize leU32 data 0x3C = p at *
  generalize leU16 data (p + 20) = soh at *
  generalize leU16 data (p + 6) = n at *
  generalize leU16 data (p + 24) = magic at *
  generalize leU16 data 0 = dos at *
  generalize leU32 data p = sig at *
  split_ifs at h
  and_intros <;> omega

theorem Parse_ok_iff (data : List Byte) (m : PeMetadata) :
    Parse data = .ok m ↔ (wellFormed data ∧ m = metadataAt data) := by
  constructor
  · intro h
    exact ⟨wellFormed_of_Parse h, (Parse_ok_inv h).1⟩
  · intro ⟨hw, hm⟩
    rw [hm]
    exact Parse_of_wellFormed hw

/-- C18: once the guard `n <= SIZE_MAX / 40` and the bounds check
`EnsureBounds(section_table_offset, n * 40)` have passed, every read of the section loop
is in bounds: for every `i < n` the entry offset `T + 40 * i` does not wrap, the 40 bytes
of the entry lie inside the buffer, and the name read and the four `ReadU32` at
sub-offsets 8, 12, 16, 20 return their values; the loop runs to completion with `n`
entries. A buffer that passes every check of `Parse` is therefore parsed to the end. -/
theorem C18_section_loop_in_bounds (data : List Byte) (T n : Nat)
    (hsize : data.length ≤ SIZE_MAX) (hguard : ¬ n > SIZE_MAX / kSectionSize)
    (hb : EnsureBounds data T (szMul n kSectionSize) = .ok ()) :
    (∀ i, i < n →
      szAdd T (szMul i kSectionSize) = T + 40 * i
      ∧ T + 40 * i + 40 ≤ data.length
      ∧ ReadString data (T + 40 * i) 8 = .ok (fixedString data (T + 40 * i) 8)
      ∧ ReadU32 data (szAdd (T + 40 * i) 8) = .ok (leU32 data (T + 40 * i + 8))
      ∧ ReadU32 data (szAdd (T + 40 * i) 12) = .ok (leU32 data (T + 40 * i + 12))
      ∧ ReadU32 data (szAdd (T + 40 * i) 16) = .ok (leU32 data (T + 40 * i + 16))
      ∧ ReadU32 data (szAdd (T + 40 * i) 20) = .ok (leU32 data (T + 40 * i + 20)))
    ∧ (∃ sections, sectionLoop data T n 0 [] = .ok sections ∧ sections.length = n)
    ∧ (wellFormed data → ∃ m, Parse data = .ok m) := by
  have hg : n * 40 ≤ SIZE_MAX := by
    unfold kSectionSize SIZE_MAX at hguard
    unfold SIZE_MAX
    omega
  have hmul : szMul n kSectionSize = n * 40 := szMul_eq _ _ hg
  have hfit : T + n * 40 ≤ data.length := by
    rw [hmul] at hb
    exact (EnsureBounds_eq_ok_iff data T (n * 40)).1 hb
  refine ⟨?_, ?_, fun hw => ⟨_, Parse_of_wellFormed hw⟩⟩
  · intro i hi
    have hi40 : szMul i kSectionSize = 40 * i :=
      (szMul_eq _ _ (by unfold kSectionSize; omega)).trans (Nat.mul_comm _ _)
    have e8 : szAdd (T + 40 * i) 8 = T + 40 * i + 8 := szAdd_eq _ _ (by omega)
    have e12 : szAdd (T + 40 * i) 12 = T + 40 * i + 12 := szAdd_eq _ _ (by omega)
    have e16 : szAdd (T + 40 * i) 16 = T + 40 * i + 16 := szAdd_eq _ _ (by omega)
    have e20 : szAdd (T + 40 * i) 20 = T + 40 * i + 20 := szAdd_eq _ _ (by omega)
    rw [hi40, e8, e12, e16, e20]
    exact ⟨szAdd_eq _ _ (by omega), by omega, ReadString_of_le (by omega) (by omega),
      ReadU32_of_le (by omega) (by omega), ReadU32_of_le (by omega) (by omega),
      ReadU32_of_le (by omega) (by omega), ReadU32_of_le (by omega) (by omega)⟩
  · refine ⟨_, sectionLoop_eq data T n 0 [] (by omega) (by omega), ?_⟩
    simp

set_option maxRecDepth 100000 in
/-- C18 at the two-entry section table of the PE32 sample (offset 158). -/
theorem C18_section_loop_in_bounds_witness :
    samplePe32.length ≤ SIZE_MAX ∧ ¬ 2 > SIZE_MAX / kSectionSize
    ∧ EnsureBounds samplePe32 158 (szMul 2 kSectionSize) = .ok ()
    ∧ ReadU32 samplePe32 (szAdd (158 + 40 * 1) 20) = .ok (leU32 samplePe32 (158 + 40 * 1 + 20))
    ∧ (∃ sections, sectionLoop samplePe32 158 2 0 [] = .ok sections ∧ sections.length = 2) :=
  ⟨by decide, by decide, by rfl,
   ((C18_section_loop_in_bounds samplePe32 158 2 (by decide) (by decide) (by rfl)).1 1
      (by decide)).2.2.2.2.2.2,
   (C18_section_loop_in_bounds samplePe32 158 2 (by decide) (by decide) (by rfl)).2.1⟩

theorem e_lfanew_ge_two {data : List Byte} (hdos : leU16 data 0 = 0x5A4D)
    (hsig : leU32 data (leU32 data 0x3C) = 0x00004550) : 2 ≤ leU32 data 0x3C := by
  obtain ⟨d0, d1⟩ := (leU16_eq_dosMagic_iff data).1 hdos
  obtain ⟨s0, -, -, -⟩ := (leU32_eq_peMagic_iff data _).1 hsig
  by_contra hlt
  have hp : leU32 data 0x3C = 0 ∨ leU32 data 0x3C = 1 := by omega
  rcases hp with hp | hp
  · rw [hp] at s0
    omega
  · rw [hp] at s0
    omega

set_option maxRecDepth 100000 in
theorem Parse_minimalImage : Parse minimalImage = .ok minimalImageMetadata := by rfl

/-- C19: the smallest buffer `Parse` accepts has exactly 96 bytes. Every accepted buffer
has `e_lfanew >= 2` and length at least `2 + 24 + 0x46 = 96`; a buffer of length at least
64 that starts with "MZ" and has `e_lfanew` 0 or 1 fails with "Invalid PE signature.";
and the 96-byte `minimalImage` (`e_lfanew = 2`, `size_of_optional_header = 0x46`, no
section) is accepted. -/
theorem C19_smallest_accepted_buffer :
    (∀ (data : List Byte) (m : PeMetadata), Parse data = .ok m →
      2 ≤ leU32 data 0x3C ∧ 96 ≤ data.length)
    ∧ (∀ data : List Byte, 64 ≤ data.length →
        (byteAt data 0 = 0x4D ∧ byteAt data 1 = 0x5A) → leU32 data 0x3C ≤ 1 →
        errorMessage (Parse data) = some "Invalid PE signature.")
    ∧ (minimalImage.length = 96 ∧ leU32 minimalImage 0x3C = 2
        ∧ ∃ m, Parse minimalImage = .ok m
            ∧ m.file_header.size_of_optional_header = 0x46 ∧ m.sections = []) := by
  refine ⟨?_, ?_, by decide, by decide, minimalImageMetadata, Parse_minimalImage, rfl, rfl⟩
  · intro data m h
    obtain ⟨-, h2, -, h4, -, h6, h7, -, -⟩ := wellFormed_of_Parse h
    have hp := e_lfanew_ge_two h2 h4
    exact ⟨hp, by omega⟩
  · intro data hlen hdos hp
    have h2 := (leU16_eq_dosMagic_iff data).2 hdos
    have hsig : leU32 data (leU32 data 0x3C) ≠ 0x00004550 := by
      intro h4
      have := e_lfanew_ge_two h2 h4
      omega
    rw [Parse_eq_layoutWalk]
    unfold layoutWalk
    simp only []
    rw [if_neg (by omega), if_neg (not_not.mpr h2), if_neg (by omega), if_pos hsig]
    rfl

set_option maxRecDepth 100000 in
/-- C19 at the PE32+ sample (198 bytes, `e_lfanew = 0x40`) and at the 96-byte image with
`e_lfanew` changed to 1. -/
theorem C19_smallest_accepted_buffer_witness :
    (2 ≤ leU32 samplePe32Plus 0x3C ∧ 96 ≤ samplePe32Plus.length)
    ∧ errorMessage (Parse (minimalImage.set 60 1)) = some "Invalid PE signature." :=
  ⟨C19_smallest_accepted_buffer.1 samplePe32Plus samplePe32PlusMetadata Parse_samplePe32Plus,
   C19_smallest_accepted_buffer.2.1 (minimalImage.set 60 1) (by decide) (by decide)
     (by decide)⟩

/-! ## Buffers that agree on a range of bytes -/

theorem byteAt_congr {d1 d2 : List Byte} {j : Nat} (h : d1.getD j 0 = d2.getD j 0) :
    byteAt d1 j = byteAt d2 j := by
  unfold byteAt
  rw [h]

theorem leU16_congr (d1 d2 : List Byte) (o : Nat)
    (h : ∀ j, o ≤ j → j < o + 2 → d1.getD j 0 = d2.getD j 0) : leU16 d1 o = leU16 d2 o := by
  rw [leU16_eq, leU16_eq, byteAt_congr (h o (by omega) (by omega)),
    byteAt_congr (h (o + 1) (by omega) (by omega))]

theorem leU32_congr (d1 d2 : List Byte) (o : Nat)
    (h : ∀ j, o ≤ j → j < o + 4 → d1.getD j 0 = d2.getD j 0) : leU32 d1 o = leU32 d2 o := by
  rw [leU32_eq, leU32_eq, byteAt_congr (h o (by omega) (by omega)),
    byteAt_congr (h (o + 1) (by omega) (by omega)),
    byteAt_congr (h (o + 2) (by omega) (by omega)),
    byteAt_congr (h (o + 3) (by omega) (by omega))]

theorem leU64_congr (d1 d2 : List Byte) (o : Nat)
    (h : ∀ j, o ≤ j → j < o + 8 → d1.getD j 0 = d2.getD j 0) : leU64 d1 o = leU64 d2 o := by
  rw [leU64_eq, leU64_eq, byteAt_congr (h o (by omega) (by omega)),
    byteAt_congr (h (o + 1) (by omega) (by omega)),
    byteAt_congr (h (o + 2) (by omega) (by omega)),
    byteAt_congr (h (o + 3) (by omega) (by omega)),
    byteAt_congr (h (o + 4) (by omega) (by omega)),
    byteAt_congr (h (o + 5) (by omega) (by omega)),
    byteAt_congr (h (o + 6) (by omega) (by omega)),
    byteAt_congr (h (o + 7) (by omega) (by omega))]

theorem fixedString_congr (d1 d2 : List Byte) :
    ∀ (k o : Nat), o + k ≤ d1.length → o + k ≤ d2.length →
      (∀ j, o ≤ j → j < o + k → d1.getD j 0 = d2.getD j 0) →
      fixedString d1 o k = fixedString d2 o k := by
  intro k
  induction k with
  | zero =>
    intro o _ _ _
    rw [fixedString_zero, fixedString_zero]
  | succ k ih =>
    intro o h1 h2 h
    rw [fixedString_succ d1 o k (by omega), fixedString_succ d2 o k (by omega),
      h o (Nat.le_refl o) (by omega),
      ih (o + 1) (by omega) (by omega) (fun j hj1 hj2 => h j (by omega) (by omega))]

theorem sectionAt_congr (d1 d2 : List Byte) (o : Nat) (h1 : o + 8 ≤ d1.length)
    (h2 : o + 8 ≤ d2.length) (h : ∀ j, o ≤ j → j < o + 24 → d1.getD j 0 = d2.getD j 0) :
    sectionAt d1 o = sectionAt d2 o := by
  unfold sectionAt
  rw [fixedString_congr d1 d2 8 o h1 h2 (fun j hj1 hj2 => h j hj1 (by omega)),
    leU32_congr d1 d2 (o + 8) (fun j hj1 hj2 => h j (by omega) (by omega)),
    leU32_congr d1 d2 (o + 12) (fun j hj1 hj2 => h j (by omega) (by omega)),
    leU32_congr d1 d2 (o + 16) (fun j hj1 hj2 => h j (by omega) (by omega)),
    leU32_congr d1 d2 (o + 20) (fun j hj1 hj2 => h j (by omega) (by omega))]

/-- The header fields decoded from two buffers that agree below the section table. -/
theorem headers_congr (d1 d2 : List Byte) (hw : wellFormed d1)
    (hag : ∀ j, j < leU32 d1 0x3C + 24 + leU16 d1 (leU32 d1 0x3C + 20) →
      d2.getD j 0 = d1.getD j 0) :
    leU32 d2 0x3C = leU32 d1 0x3C
    ∧ leU16 d2 0 = leU16 d1 0
    ∧ leU32 d2 (leU32 d1 0x3C) = leU32 d1 (leU32 d1 0x3C)
    ∧ (leU16 d2 (leU32 d1 0x3C + 4) = leU16 d1 (leU32 d1 0x3C + 4)
      ∧ leU16 d2 (leU32 d1 0x3C + 6) = leU16 d1 (leU32 d1 0x3C + 6)
      ∧ leU32 d2 (leU32 d1 0x3C + 8) = leU32 d1 (leU32 d1 0x3C + 8)
      ∧ leU32 d2 (leU32 d1 0x3C + 12) = leU32 d1 (leU32 d1 0x3C + 12)
      ∧ leU32 d2 (leU32 d1 0x3C + 16) = leU32 d1 (leU32 d1 0x3C + 16)
      ∧ leU16 d2 (leU32 d1 0x3C + 20) = leU16 d1 (leU32 d1 0x3C + 20)
      ∧ leU16 d2 (leU32 d1 0x3C + 22) = leU16 d1 (leU32 d1 0x3C + 22))
    ∧ (leU16 d2 (leU32 d1 0x3C + 24) = leU16 d1 (leU32 d1 0x3C + 24)
      ∧ leU32 d2 (leU32 d1 0x3C + 24 + 0x10) = leU32 d1 (leU32 d1 0x3C + 24 + 0x10)
      ∧ leU64 d2 (leU32 d1 0x3C + 24 + 0x18) = leU64 d1 (leU32 d1 0x3C + 24 + 0x18)
      ∧ leU32 d2 (leU32 d1 0x3C + 24 + 0x1C) = leU32 d1 (leU32 d1 0x3C + 24 + 0x1C)
      ∧ leU16 d2 (leU32 d1 0x3C + 24 + 0x44) = leU16 d1 (leU32 d1 0x3C + 24 + 0x44)) := by
  obtain ⟨-, -, -, -, -, h6, -, -, -⟩ := hw
  and_intros
  · exact leU32_congr d2 d1 _ (fun j _ hj => hag j (by omega))
  · exact leU16_congr d2 d1 _ (fun j _ hj => hag j (by omega))
  · exact leU32_congr d2 d1 _ (fun j _ hj => hag j (by omega))
  · exact leU16_congr d2 d1 _ (fun j _ hj => hag j (by omega))
  · exact leU16_congr d2 d1 _ (fun j _ hj => hag j (by omega))
  · exact leU32_congr d2 d1 _ (fun j _ hj => hag j (by omega))
  · exact leU32_congr d2 d1 _ (fun j _ hj => hag j (by omega))
  · exact leU32_congr d2 d1 _ (fun j _ hj => hag j (by omega))
  · exact leU16_congr d2 d1 _ (fun j _ hj => hag j (by omega))
  · exact leU16_congr d2 d1 _ (fun j _ hj => hag j (by omega))
  · exact leU16_congr d2 d1 _ (fun j _ hj => hag j (by omega))
  · exact leU32_congr d2 d1 _ (fun j _ hj => hag j (by omega))
  · exact leU64_congr d2 d1 _ (fun j _ hj => hag j (by omega))
  · exact leU32_congr d2 d1 _ (fun j _ hj => hag j (by omega))
  · exact leU16_congr d2 d1 _ (fun j _ hj => hag j (by omega))

/-- A buffer that agrees with a well-formed one below the section table, and is long enough
for a section table of the same size, is parsed to the same headers; its section entries
are read from its own section table. -/
theorem Parse_of_agree_headers (d1 d2 : List Byte) (hw : wellFormed d1)
    (hag : ∀ j, j < leU32 d1 0x3C + 24 + leU16 d1 (leU32 d1 0x3C + 20) →
      d2.getD j 0 = d1.getD j 0)
    (hfit : leU32 d1 0x3C + 24 + leU16 d1 (leU32 d1 0x3C + 20)
      + 40 * leU16 d1 (leU32 d1 0x3C + 6) ≤ d2.length) :
    Parse d2 = .ok
      { file_header := (metadataAt d1).file_header,
        optional_header := (metadataAt d1).optional_header,
        sections := (List.range (leU16 d1 (leU32 d1 0x3C + 6))).map
          (fun i => sectionAt d2 (leU32 d1 0x3C + 24 + leU16 d1 (leU32 d1 0x3C + 20) + 40 * i)) } := by
  obtain ⟨e0, e1, e2, ⟨f1, f2, f3, f4, f5, f6, f7⟩, g1, g2, g3, g4, g5⟩ :=
    headers_congr d1 d2 hw hag
  have hw2 : wellFormed d2 := by
    unfold wellFormed at hw ⊢
    rw [e0, e1, e2, f2, f6, g1]
    obtain ⟨h1, h2, h3, h4, h5, h6, h7, h8, h9⟩ := hw
    exact ⟨by omega, h2, by omega, h4, by omega, h6, by omega, h8, hfit⟩
  rw [Parse_of_wellFormed hw2]
  unfold metadataAt
  simp only [e0, f1, f2, f3, f4, f5, f6, f7, g1, g2, g3, g4, g5]

/-- C20: `Parse` ignores everything after the section table. If `Parse` accepts `b` with
metadata `m`, then it accepts `b ++ t` with the same `m` for every `t`; more generally,
with `E` the end of the section table of `b`, every buffer of length at least `E` whose
first `E` bytes are those of `b` is accepted with the same `m`. -/
theorem C20_trailing_bytes_ignored (b : List Byte) (m : PeMetadata) (h : Parse b = .ok m) :
    (∀ t : List Byte, Parse (b ++ t) = .ok m)
    ∧ (∀ b' : List Byte,
        leU32 b 0x3C + 24 + leU16 b (leU32 b 0x3C + 20) + 40 * leU16 b (leU32 b 0x3C + 6)
          ≤ b'.length →
        b'.take (leU32 b 0x3C + 24 + leU16 b (leU32 b 0x3C + 20)
            + 40 * leU16 b (leU32 b 0x3C + 6))
          = b.take (leU32 b 0x3C + 24 + leU16 b (leU32 b 0x3C + 20)
            + 40 * leU16 b (leU32 b 0x3C + 6)) →
        Parse b' = .ok m) := by
  have hw := wellFormed_of_Parse h
  have hm := (Parse_ok_inv h).1
  have hE : leU32 b 0x3C + 24 + leU16 b (leU32 b 0x3C + 20)
      + 40 * leU16 b (leU32 b 0x3C + 6) ≤ b.length := hw.2.2.2.2.2.2.2.2
  have general : ∀ b' : List Byte,
      leU32 b 0x3C + 24 + leU16 b (leU32 b 0x3C + 20) + 40 * leU16 b (leU32 b 0x3C + 6)
        ≤ b'.length →
      (∀ j, j < leU32 b 0x3C + 24 + leU16 b (leU32 b 0x3C + 20)
        + 40 * leU16 b (leU32 b 0x3C + 6) → b'.getD j 0 = b.getD j 0) →
      Parse b' = .ok m := by
    intro b' hlen hag
    rw [Parse_of_agree_headers b b' hw (fun j hj => hag j (by omega)) hlen, hm]
    congr 2
    apply List.map_congr_left
    intro i hi
    have hi' : i < leU16 b (leU32 b 0x3C + 6) := List.mem_range.1 hi
    exact sectionAt_congr b' b _ (by omega) (by omega)
      (fun j hj1 hj2 => hag j (by omega))
  constructor
  · intro t
    apply general (b ++ t)
    · rw [List.length_append]
      omega
    · intro j hj
      rw [List.getD_eq_getElem?_getD, List.getD_eq_getElem?_getD,
        List.getElem?_append_left (by omega)]
  · intro b' hlen htake
    apply general b' hlen
    intro j hj
    have e1 : (List.take _ b')[j]? = b'[j]? := List.getElem?_take_of_lt hj
    have e2 : (List.take _ b)[j]? = b[j]? := List.getElem?_take_of_lt hj
    rw [List.getD_eq_getElem?_getD, List.getD_eq_getElem?_getD, ← e1, ← e2, htake]

set_option maxRecDepth 100000 in
/-- C20 at the PE32 sample followed by three more bytes. -/
theorem C20_trailing_bytes_ignored_witness :
    Parse samplePe32 = .ok samplePe32Metadata
    ∧ Parse (samplePe32 ++ [0xDE, 0xAD, 0xFF]) = .ok samplePe32Metadata :=
  ⟨Parse_samplePe32,
   (C20_trailing_bytes_ignored samplePe32 samplePe32Metadata Parse_samplePe32).1
     [0xDE, 0xAD, 0xFF]⟩

theorem length_overwrite (data : List Byte) (offset : Nat) (bytes : List Byte)
    (h : offset + bytes.length ≤ data.length) :
    (overwrite data offset bytes).length = data.length := by
  unfold overwrite
  simp only [List.length_append, List.length_take, List.length_drop]
  omega

theorem getD_overwrite_lt (data : List Byte) (offset : Nat) (bytes : List Byte) (j : Nat)
    (hj : j < offset) (h : offset ≤ data.length) :
    (overwrite data offset bytes).getD j 0 = data.getD j 0 := by
  unfold overwrite
  rw [List.getD_eq_getElem?_getD, List.getD_eq_getElem?_getD, List.append_assoc,
    List.getElem?_append_left (by rw [List.length_take]; omega),
    List.getElem?_take_of_lt hj]

theorem getD_overwrite_mid (data : List Byte) (offset : Nat) (bytes : List Byte) (k : Nat)
    (hk : k < bytes.length) (h : offset ≤ data.length) :
    (overwrite data offset bytes).getD (offset + k) 0 = bytes.getD k 0 := by
  have hlen : (data.take offset).length = offset := by
    rw [List.length_take]; omega
  unfold overwrite
  rw [List.getD_eq_getElem?_getD, List.getD_eq_getElem?_getD, List.append_assoc,
    List.getElem?_append_right (by omega), hlen, Nat.add_sub_cancel_left,
    List.getElem?_append_left hk]

theorem getD_overwrite_ge (data : List Byte) (offset : Nat) (bytes : List Byte) (j : Nat)
    (hj : offset + bytes.length ≤ j) (h : offset ≤ data.length) :
    (overwrite data offset bytes).getD j 0 = data.getD j 0 := by
  have hlen : (data.take offset).length = offset := by
    rw [List.length_take]; omega
  unfold overwrite
  rw [List.getD_eq_getElem?_getD, List.getD_eq_getElem?_getD, List.append_assoc,
    List.getElem?_append_right (by omega), hlen,
    List.getElem?_append_right (by omega), List.getElem?_drop]
  congr 2
  omega

theorem leU32_overwrite (data : List Byte) (offset : Nat) (bytes : List Byte) (k : Nat)
    (hk : k + 4 ≤ bytes.length) (h : offset ≤ data.length) :
    leU32 (overwrite data offset bytes) (offset + k) = leU32 bytes k := by
  have hb : ∀ i, i < 4 →
      byteAt (overwrite data offset bytes) (offset + k + i) = byteAt bytes (k + i) := by
    intro i hi
    unfold byteAt
    rw [Nat.add_assoc, getD_overwrite_mid data offset bytes (k + i) (by omega) h]
  rw [leU32_eq, leU32_eq, ← hb 1 (by omega), ← hb 2 (by omega), ← hb 3 (by omega)]
  have h0 := hb 0 (by omega)
  rw [Nat.add_zero, Nat.add_zero] at h0
  rw [h0]

theorem leU32_encode_fields (v0 v1 v2 v3 : Nat) (h0 : v0 < 4294967296)
    (h1 : v1 < 4294967296) (h2 : v2 < 4294967296) (h3 : v3 < 4294967296) :
    leU32 (encodeU32 v0 ++ encodeU32 v1 ++ encodeU32 v2 ++ encodeU32 v3) 0 = v0
    ∧ leU32 (encodeU32 v0 ++ encodeU32 v1 ++ encodeU32 v2 ++ encodeU32 v3) 4 = v1
    ∧ leU32 (encodeU32 v0 ++ encodeU32 v1 ++ encodeU32 v2 ++ encodeU32 v3) 8 = v2
    ∧ leU32 (encodeU32 v0 ++ encodeU32 v1 ++ encodeU32 v2 ++ encodeU32 v3) 12 = v3 := by
  refine ⟨?_, ?_, ?_, ?_⟩
  all_goals
    rw [leU32_eq]
    simp only [encodeU32, byteAt, List.cons_append, List.nil_append, List.getD_cons_zero,
      List.getD_cons_succ, Fin.ofNat, Nat.zero_add, Nat.reduceAdd]
    omega

theorem length_encode_fields (v0 v1 v2 v3 : Nat) :
    (encodeU32 v0 ++ encodeU32 v1 ++ encodeU32 v2 ++ encodeU32 v3).length = 16 := rfl

/-- The section entry at `o` after its four 32-bit fields were overwritten. -/
theorem sectionAt_overwrite_fields (data : List Byte) (o vs va rs rp : Nat)
    (h : o + 24 ≤ data.length) (hvs : vs < 4294967296) (hva : va < 4294967296)
    (hrs : rs < 4294967296) (hrp : rp < 4294967296) :
    sectionAt (overwrite data (o + 8)
        (encodeU32 vs ++ encodeU32 va ++ encodeU32 rs ++ encodeU32 rp)) o
      = { name := (sectionAt data o).name, virtual_size := vs, virtual_address := va,
          size_of_raw_data := rs, pointer_to_raw_data := rp } := by
  obtain ⟨c0, c1, c2, c3⟩ := leU32_encode_fields vs va rs rp hvs hva hrs hrp
  have hl := length_encode_fields vs va rs rp
  have hlen := length_overwrite data (o + 8)
    (encodeU32 vs ++ encodeU32 va ++ encodeU32 rs ++ encodeU32 rp) (by omega)
  have w0 := leU32_overwrite data (o + 8)
    (encodeU32 vs ++ encodeU32 va ++ encodeU32 rs ++ encodeU32 rp) 0 (by omega) (by omega)
  have w1 := leU32_overwrite data (o + 8)
    (encodeU32 vs ++ encodeU32 va ++ encodeU32 rs ++ encodeU32 rp) 4 (by omega) (by omega)
  have w2 := leU32_overwrite data (o + 8)
    (encodeU32 vs ++ encodeU32 va ++ encodeU32 rs ++ encodeU32 rp) 8 (by omega) (by omega)
  have w3 := leU32_overwrite data (o + 8)
    (encodeU32 vs ++ encodeU32 va ++ encodeU32 rs ++ encodeU32 rp) 12 (by omega) (by omega)
  rw [c0] at w0
  rw [c1] at w1
  rw [c2] at w2
  rw [c3] at w3
  have hname := fixedString_congr
    (overwrite data (o + 8) (encodeU32 vs ++ encodeU32 va ++ encodeU32 rs ++ encodeU32 rp))
    data 8 o (by omega) (by omega)
    (fun j _ hj2 => getD_overwrite_lt data (o + 8) _ j (by omega) (by omega))
  generalize overwrite data (o + 8)
    (encodeU32 vs ++ encodeU32 va ++ encodeU32 rs ++ encodeU32 rp) = d' at *
  simp only [Nat.add_assoc, Nat.reduceAdd, Nat.add_zero] at w0 w1 w2 w3
  unfold sectionAt
  rw [hname, w0, w1, w2, w3]

/-- C15: section raw-data ranges are never validated. For every buffer `Parse` accepts and
every section index `i`, overwriting the four 32-bit fields of entry `i` (at sub-offsets
8..23) with arbitrary 32-bit values gives a buffer of the same length that `Parse`
accepts; the metadata differs only in entry `i`, which keeps its name and reports the new
virtual size, virtual address, raw size and raw pointer, whatever their sum is. -/
theorem C15_section_fields_not_validated (data : List Byte) (m : PeMetadata)
    (i vs va rs rp : Nat) (h : Parse data = .ok m)
    (hi : i < m.file_header.number_of_sections)
    (hvs : vs < 2 ^ 32) (hva : va < 2 ^ 32) (hrs : rs < 2 ^ 32) (hrp : rp < 2 ^ 32) :
    let T := leU32 data 0x3C + 24 + m.file_header.size_of_optional_header
    let data' := overwrite data (T + 40 * i + 8)
      (encodeU32 vs ++ encodeU32 va ++ encodeU32 rs ++ encodeU32 rp)
    data'.length = data.length
    ∧ ∃ s, m.sections[i]? = some s
        ∧ Parse data' = .ok
            { file_header := m.file_header,
              optional_header := m.optional_header,
              sections := m.sections.set i
                { name := s.name, virtual_size := vs, virtual_address := va,
                  size_of_raw_data := rs, pointer_to_raw_data := rp } } := by
  intro T data'
  have hw := wellFormed_of_Parse h
  have hm := (Parse_ok_inv h).1
  subst hm
  have hi' : i < leU16 data (leU32 data 0x3C + 6) := hi
  have hT : T = leU32 data 0x3C + 24 + leU16 data (leU32 data 0x3C + 20) := rfl
  have hE : T + 40 * leU16 data (leU32 data 0x3C + 6) ≤ data.length := hw.2.2.2.2.2.2.2.2
  have hl := length_encode_fields vs va rs rp
  have hlen : data'.length = data.length :=
    length_overwrite data (T + 40 * i + 8) _ (by omega)
  have hag : ∀ j, j < T → data'.getD j 0 = data.getD j 0 :=
    fun j hj => getD_overwrite_lt data (T + 40 * i + 8) _ j (by omega) (by omega)
  have hP := Parse_of_agree_headers data data' hw hag (by rw [hlen]; exact hE)
  refine ⟨hlen, sectionAt data (T + 40 * i), ?_, ?_⟩
  · simp only [metadataAt, List.getElem?_map, List.getElem?_range hi', Option.map_some']
    rfl
  · rw [hP]
    congr 2
    apply List.ext_getElem?
    intro j
    by_cases hji : j = i
    · subst hji
      rw [List.getElem?_set_self (by simpa [metadataAt] using hi'), List.getElem?_map,
        List.getElem?_range hi', Option.map_some']
      exact congrArg some
        (sectionAt_overwrite_fields data (T + 40 * j) vs va rs rp (by omega) hvs hva hrs hrp)
    · rw [List.getElem?_set_ne (Ne.symm hji)]
      simp only [metadataAt, List.getElem?_map]
      by_cases hjn : j < leU16 data (leU32 data 0x3C + 6)
      · rw [List.getElem?_range hjn, Option.map_some', Option.map_some']
        refine congrArg some (sectionAt_congr data' data _ (by omega) (by omega) ?_)
        intro k hk1 hk2
        by_cases hlt : j < i
        · exact getD_overwrite_lt data (T + 40 * i + 8) _ k (by omega) (by omega)
        · exact getD_overwrite_ge data (T + 40 * i + 8) _ k (by omega) (by omega)
      · rw [List.getElem?_eq_none (by simpa using hjn)]
        rfl

set_option maxRecDepth 100000 in
/-- C15 at the PE32 sample (238 bytes): entry 0 gets raw size and raw pointer
`0xFFFFFFFF`, far beyond the end of the buffer. -/
theorem C15_section_fields_not_validated_witness :
    Parse samplePe32 = .ok samplePe32Metadata
    ∧ Parse (overwrite samplePe32 (158 + 40 * 0 + 8)
        (encodeU32 7 ++ encodeU32 9 ++ encodeU32 0xFFFFFFFF ++ encodeU32 0xFFFFFFFF))
      = .ok
          { file_header := samplePe32Metadata.file_header,
            optional_header := samplePe32Metadata.optional_header,
            sections := samplePe32Metadata.sections.set 0
              { name := [0x2E, 0x74, 0x65, 0x78, 0x74], virtual_size := 7,
                virtual_address := 9, size_of_raw_data := 0xFFFFFFFF,
                pointer_to_raw_data := 0xFFFFFFFF } } := by
  obtain ⟨-, s, hs, hp⟩ := C15_section_fields_not_validated samplePe32 samplePe32Metadata 0
    7 9 0xFFFFFFFF 0xFFFFFFFF Parse_samplePe32 (by decide) (by decide) (by decide)
    (by decide) (by decide)
  have hs0 : s =
      { name := [0x2E, 0x74, 0x65, 0x78, 0x74], virtual_size := 1, virtual_address := 2,
        size_of_raw_data := 3, pointer_to_raw_data := 0xFFFFFFFF } :=
    (Option.some.inj hs).symm
  subst hs0
  exact ⟨Parse_samplePe32, hp⟩

/-! ## Lemmas on the hexadecimal output -/

theorem hexDigitUpper_spec (d : Nat) (h : d < 16) :
    hexDigitUpper d ∈ hexChars ∧ hexChars.indexOf (hexDigitUpper d) = d := by
  interval_cases d <;> exact ⟨by decide, by decide⟩

theorem hexDigitsAux_append :
    ∀ (fuel v : Nat) (acc : List Char),
      hexDigitsAux fuel v acc = hexDigitsAux fuel v [] ++ acc := by
  intro fuel
  induction fuel with
  | zero =>
    intro v acc
    rfl
  | succ fuel ih =>
    intro v acc
    unfold hexDigitsAux
    by_cases hv : v < 16
    · rw [if_pos hv, if_pos hv]
      rfl
    · rw [if_neg hv, if_neg hv, ih (v / 16) (hexDigitUpper (v % 16) :: acc),
        ih (v / 16) [hexDigitUpper (v % 16)], List.append_assoc]
      rfl

theorem hexValue_append_single (l : List Char) (c : Char) :
    hexValue (l ++ [c]) = 16 * hexValue l + hexChars.indexOf c := by
  unfold hexValue
  rw [List.foldl_append]
  rfl

theorem hexValue_replicate_zero_append (n : Nat) (l : List Char) :
    hexValue (List.replicate n '0' ++ l) = hexValue l := by
  unfold hexValue
  rw [List.foldl_append]
  congr 1
  induction n with
  | zero => rfl
  | succ n ih =>
    rw [List.replicate_succ, List.foldl_cons]
    exact ih

/-- The digits produced with enough fuel: they denote `v`, are hexadecimal digit
characters, and are at least one and at most `k` when `v < 16 ^ k`. -/
theorem hexDigitsAux_spec :
    ∀ (fuel v k : Nat), 1 ≤ k → k ≤ fuel → v < 16 ^ k →
      hexValue (hexDigitsAux fuel v []) = v
      ∧ (∀ c ∈ hexDigitsAux fuel v [], c ∈ hexChars)
      ∧ 1 ≤ (hexDigitsAux fuel v []).length
      ∧ (hexDigitsAux fuel v []).length ≤ k := by
  intro fuel
  induction fuel with
  | zero =>
    intro v k hk1 hk2 _
    omega
  | succ fuel ih =>
    intro v k hk1 hk2 hv
    unfold hexDigitsAux
    by_cases hlt : v < 16
    · rw [if_pos hlt]
      obtain ⟨hmem, hidx⟩ := hexDigitUpper_spec v hlt
      refine ⟨?_, ?_, ?_, ?_⟩
      · show 16 * 0 + hexChars.indexOf (hexDigitUpper v) = v
        rw [hidx]
        omega
      · intro c hc
        rw [List.mem_singleton] at hc
        rw [hc]
        exact hmem
      · exact Nat.le_refl 1
      · exact hk1
    · rw [if_neg hlt, hexDigitsAux_append]
      have hk2' : 2 ≤ k := by
        by_contra hcon
        have hk : k = 1 := by omega
        rw [hk] at hv
        omega
      obtain ⟨k', rfl⟩ : ∃ k', k = k' + 1 := ⟨k - 1, by omega⟩
      have hdiv : v / 16 < 16 ^ k' := by
        rw [Nat.pow_succ] at hv
        exact Nat.div_lt_of_lt_mul (by rw [Nat.mul_comm]; exact hv)
      obtain ⟨hval, hmem, hlen1, hlenk⟩ := ih (v / 16) k' (by omega) (by omega) hdiv
      obtain ⟨hdm, hdi⟩ := hexDigitUpper_spec (v % 16) (Nat.mod_lt _ (by decide))
      refine ⟨?_, ?_, ?_, ?_⟩
      · rw [hexValue_append_single, hval, hdi]
        omega
      · intro c hc
        rcases List.mem_append.1 hc with hc | hc
        · exact hmem c hc
        · rw [List.mem_singleton] at hc
          rw [hc]
          exact hdm
      · rw [List.length_append]
        omega
      · rw [List.length_append, List.length_singleton]
        omega

theorem Hex_data (value : Nat) (width : Int) :
    (Hex value width).data
      = ['0', 'x'] ++ (List.replicate (width.toNat - (hexDigitsUpper value).length) '0'
          ++ hexDigitsUpper value) := by
  unfold Hex
  by_cases hw : width > 0
  · simp only [hw, if_true, OStringStream.insertHexUpper, OStringStream.insertField,
      OStringStream.setw, OStringStream.setfill, OStringStream.fresh]
    rfl
  · have h0 : width.toNat = 0 := by omega
    simp only [hw, if_false, OStringStream.insertHexUpper, OStringStream.insertField,
      OStringStream.fresh, h0, Nat.zero_sub, List.replicate_zero, List.nil_append]

theorem leU64_lt (data : List Byte) (o : Nat) : leU64 data o < 18446744073709551616 := by
  have h0 := byteAt_lt data o
  have h1 := byteAt_lt data (o + 1)
  have h2 := byteAt_lt data (o + 2)
  have h3 := byteAt_lt data (o + 3)
  have h4 := byteAt_lt data (o + 4)
  have h5 := byteAt_lt data (o + 5)
  have h6 := byteAt_lt data (o + 6)
  have h7 := byteAt_lt data (o + 7)
  rw [leU64_eq]
  omega

/-- The text of `Hex value width` when the digits of `value` fit into `width`: "0x" and
exactly `width` hexadecimal digits denoting `value`. -/
theorem Hex_fixed_width (value k : Nat) (hk : 1 ≤ k) (hk16 : k ≤ 16) (hv : value < 16 ^ k) :
    ∃ ds, (Hex value (k : Int)).data = ['0', 'x'] ++ ds ∧ ds.length = k
      ∧ (∀ c ∈ ds, c ∈ hexChars) ∧ hexValue ds = value := by
  obtain ⟨hval, hmem, hlen1, hlenk⟩ := hexDigitsAux_spec 16 value k hk hk16 hv
  refine ⟨_, Hex_data value k, ?_, ?_, ?_⟩
  · rw [List.length_append, List.length_replicate, Int.toNat_ofNat]
    unfold hexDigitsUpper
    omega
  · intro c hc
    rcases List.mem_append.1 hc with hc | hc
    · rw [(List.mem_replicate.1 hc).2]
      decide
    · exact hmem c hc
  · rw [hexValue_replicate_zero_append]
    exact hval

theorem hexDigitUpper_ne_zero (d : Nat) (h0 : 0 < d) (h : d < 16) : hexDigitUpper d ≠ '0' := by
  interval_cases d <;> decide

/-- The digits produced for a positive value do not start with '0'. -/
theorem hexDigitsAux_head :
    ∀ (fuel v : Nat), 0 < v → v < 16 ^ fuel →
      (hexDigitsAux fuel v []).head? ≠ some '0' := by
  intro fuel
  induction fuel with
  | zero =>
    intro v h0 hv
    rw [Nat.pow_zero] at hv
    omega
  | succ fuel ih =>
    intro v h0 hv
    unfold hexDigitsAux
    by_cases hlt : v < 16
    · rw [if_pos hlt]
      intro h
      exact hexDigitUpper_ne_zero v h0 hlt (Option.some.inj h)
    · rw [if_neg hlt, hexDigitsAux_append]
      have hdiv : v / 16 < 16 ^ fuel := by
        rw [Nat.pow_succ] at hv
        exact Nat.div_lt_of_lt_mul (by rw [Nat.mul_comm]; exact hv)
      have hpos : 0 < v / 16 := Nat.div_pos (by omega) (by decide)
      have hih := ih (v / 16) hpos hdiv
      cases hds : hexDigitsAux fuel (v / 16) [] with
      | nil =>
        rw [hds] at hih
        cases fuel with
        | zero =>
          rw [Nat.pow_zero] at hdiv
          omega
        | succ f =>
          unfold hexDigitsAux at hds
          by_cases h16 : v / 16 < 16
          · rw [if_pos h16] at hds
            cases hds
          · rw [if_neg h16, hexDigitsAux_append] at hds
            exact absurd hds (List.append_ne_nil_of_right_ne_nil _ (List.cons_ne_nil _ _))
      | cons c cs =>
        rw [hds] at hih
        exact hih

theorem hexDigitsUpper_zero : hexDigitsUpper 0 = ['0'] := by decide

/-- The digits have no leading zero: they are the single digit '0' or do not start
with '0'. -/
theorem hexDigitsUpper_canonical (value : Nat) (hv : value < 16 ^ 16) :
    hexDigitsUpper value = ['0'] ∨ (hexDigitsUpper value).head? ≠ some '0' := by
  by_cases h0 : value = 0
  · left
    rw [h0]
    exact hexDigitsUpper_zero
  · right
    exact hexDigitsAux_head 16 value (by omega) hv

/-- C16: `Hex(value, width)` returns "0x" followed by the uppercase hexadecimal digits of
`value`, padded on the left with '0' to at least `width` digits and never truncated: the
text after "0x" is a run of '0' followed by the digits of `value` (hexadecimal digit
characters that denote `value`, between 1 and 16 of them, without a leading zero: the
single digit '0' for the value 0 and otherwise not starting with '0'), and its length is
the larger of `width` and the number of digits. Consequently, for every accepted buffer
the image base printed by `PrintMetadata` has exactly 8 hexadecimal digits for PE32 and
exactly 16 for PE32+, and they denote `image_base`. -/
theorem C16_hex_format :
    (∀ (value : Nat) (width : Int), value < 2 ^ 64 →
      ∃ pad digits : List Char,
        (Hex value width).data = ['0', 'x'] ++ (pad ++ digits)
        ∧ (∀ c ∈ pad, c = '0')
        ∧ (∀ c ∈ digits, c ∈ hexChars)
        ∧ hexValue digits = value
        ∧ (digits = ['0'] ∨ digits.head? ≠ some '0')
        ∧ 1 ≤ digits.length ∧ digits.length ≤ 16
        ∧ (pad ++ digits).length = max width.toNat digits.length)
    ∧ (∀ (data : List Byte) (m : PeMetadata), Parse data = .ok m →
        (m.optional_header.is_pe32_plus = false →
          ∃ ds, (printedImageBase m).data = ['0', 'x'] ++ ds ∧ ds.length = 8
            ∧ (∀ c ∈ ds, c ∈ hexChars) ∧ hexValue ds = m.optional_header.image_base)
        ∧ (m.optional_header.is_pe32_plus = true →
          ∃ ds, (printedImageBase m).data = ['0', 'x'] ++ ds ∧ ds.length = 16
            ∧ (∀ c ∈ ds, c ∈ hexChars) ∧ hexValue ds = m.optional_header.image_base)) := by
  constructor
  · intro value width hv
    obtain ⟨hval, hmem, hlen1, hlenk⟩ :=
      hexDigitsAux_spec 16 value 16 (by decide) (Nat.le_refl 16) hv
    refine ⟨_, _, Hex_data value width, ?_, hmem, hval, hexDigitsUpper_canonical value hv,
      hlen1, hlenk, ?_⟩
    · intro c hc
      exact (List.mem_replicate.1 hc).2
    · rw [List.length_append, List.length_replicate]
      omega
  · intro data m h
    obtain ⟨hm, hmagic, -⟩ := Parse_ok_inv h
    subst hm
    have h32 := leU32_lt data (leU32 data 0x3C + 24 + 0x1C)
    have h64 := leU64_lt data (leU32 data 0x3C + 24 + 0x18)
    unfold printedImageBase
    simp only [metadataAt, decide_eq_true_eq, decide_eq_false_iff_not]
    constructor
    · intro hne
      rw [if_neg hne, if_neg hne]
      exact Hex_fixed_width _ 8 (by decide) (by decide) h32
    · intro he
      rw [if_pos he, if_pos he]
      exact Hex_fixed_width _ 16 (by decide) (by decide) h64

set_option maxRecDepth 100000 in
/-- C16 at the two samples: the PE32 image base `0x00400000` is printed with 8 digits, the
PE32+ image base with 16; a value with more digits than the width is printed in full, and
without a width the value 10 is printed as the single digit `A`. -/
theorem C16_hex_format_witness :
    printedImageBase samplePe32Metadata = "0x00400000"
    ∧ printedImageBase samplePe32PlusMetadata = "0x00400000DEADBEEF"
    ∧ Hex 0xABCDEF1234 8 = "0xABCDEF1234"
    ∧ Hex 0x8664 4 = "0x8664" ∧ Hex 10 0 = "0xA" ∧ Hex 0 0 = "0x0" ∧ Hex 0 4 = "0x0000"
    ∧ (∃ ds, (printedImageBase samplePe32Metadata).data = ['0', 'x'] ++ ds ∧ ds.length = 8
        ∧ (∀ c ∈ ds, c ∈ hexChars)
        ∧ hexValue ds = samplePe32Metadata.optional_header.image_base)
    ∧ (10 < 2 ^ 64
        ∧ ∃ pad digits : List Char,
          (Hex 10 0).data = ['0', 'x'] ++ (pad ++ digits)
          ∧ (∀ c ∈ pad, c = '0')
          ∧ (∀ c ∈ digits, c ∈ hexChars)
          ∧ hexValue digits = 10
          ∧ (digits = ['0'] ∨ digits.head? ≠ some '0')
          ∧ 1 ≤ digits.length ∧ digits.length ≤ 16
          ∧ (pad ++ digits).length = max (0 : Int).toNat digits.length) :=
  ⟨by decide, by decide, by decide, by decide, by decide, by decide, by decide,
   ((C16_hex_format.2 samplePe32 samplePe32Metadata Parse_samplePe32).1 rfl),
   by decide, C16_hex_format.1 10 0 (by decide)⟩

end pe
